import Mathlib

/-!
Verification development for the `rag-chunking-pipeline` repository.

The Python sources are shallowly embedded over `List Char` (one entry per
Python `str` character).  Pure helper functions of the repository become Lean
functions with the same structure; `while` loops become fuel-indexed
recursions whose fuel is chosen large enough to cover every iteration the
Python loop can perform; functions that can raise `ValueError` return
`Except String _`.

Tokenization: the repository counts tokens either with the external
`tiktoken`/`tokenizers` BPE backends or, when those packages are absent, with
the regex fallback `TOKEN_RE = \w+|[^\w\s]` inflated by the 1.2 safety
factor (`chunking.py::count_tokens`).  The BPE backends are external
libraries, so this file embeds the in-repository regex fallback exactly
(`scanAux` below is the maximal-munch scanner equivalent to `re.finditer`
of `\w+|[^\w\s]`), restricted to the ASCII fragment of `\w`/`\s`.
Python's `int(n * 1.2 + 0.5)` and `int(v / 1.2)` are embedded as the exact
integer expressions `(12 * n + 5) / 10` and `5 * v / 6`; for the argument
ranges used by the pipeline the double-precision expressions agree with
these rationals.
-/

set_option autoImplicit false

namespace RagChunker

/-- Python strings are embedded as lists of characters. -/
abbrev Str := List Char

/-- Python whitespace (the `\s` class and `str.strip` default set),
ASCII fragment. -/
def pyIsSpace (c : Char) : Bool :=
  c = ' ' || c = '\t' || c = '\n' || c = '\r' || c = '\x0b' || c = '\x0c'

/-- The regex `\w` class (ASCII fragment): alphanumerics and underscore. -/
def isWordChar (c : Char) : Bool :=
  c.isAlphanum || c = '_'

/-- Python `str.lstrip()`. -/
def pyLStrip (s : Str) : Str := s.dropWhile pyIsSpace

/-- Python `str.rstrip()`. -/
def pyRStrip (s : Str) : Str := (s.reverse.dropWhile pyIsSpace).reverse

/-- Python `str.strip()`. -/
def pyStrip (s : Str) : Str := pyRStrip (pyLStrip s)

/-- Python slicing `s[a:b]` for `0 ≤ a ≤ b` (the only form the sources use);
polymorphic because the service also slices token-id lists. -/
def pySlice {α : Type} (s : List α) (a b : Nat) : List α := (s.drop a).take (b - a)

/-- Helper for `str.splitlines`: accumulates the current line (reversed). -/
def splitLinesAux : Str → Str → List Str
  | [], acc => if acc.isEmpty then [] else [acc.reverse]
  | '\r' :: '\n' :: rest, acc => acc.reverse :: splitLinesAux rest []
  | '\n' :: rest, acc => acc.reverse :: splitLinesAux rest []
  | '\r' :: rest, acc => acc.reverse :: splitLinesAux rest []
  | c :: rest, acc => splitLinesAux rest (c :: acc)

/-- Python `str.splitlines()` (for the `\n`/`\r\n`/`\r` terminators the
pipeline's data can contain). -/
def pySplitLines (s : Str) : List Str := splitLinesAux s []

/-- Python `"sep".join(parts)`. -/
def pyJoin (sep : Str) (parts : List Str) : Str := List.intercalate sep parts

/-- Helper for `str.split(sep)` with a non-empty separator; `fuel` bounds the
number of scanned characters (callers pass the string length plus one). -/
def splitSepAux (sep : Str) : Nat → Str → Str → List Str
  | 0, s, acc => [acc.reverse ++ s]
  | fuel + 1, s, acc =>
    if sep.isPrefixOf s then acc.reverse :: splitSepAux sep fuel (s.drop sep.length) []
    else
      match s with
      | [] => [acc.reverse]
      | c :: rest => splitSepAux sep fuel rest (c :: acc)

/-- Python `s.split(sep)` for a non-empty separator. -/
def pySplitSep (sep s : Str) : List Str := splitSepAux sep (s.length + 1) s []

/-- Python `sub in s` (substring containment). -/
def pyContainsSub (sub s : Str) : Bool :=
  match s with
  | [] => sub.isPrefixOf ([] : Str)
  | _ :: rest => sub.isPrefixOf s || pyContainsSub sub rest

/-- Helper for whitespace splitting: accumulates the current word (reversed). -/
def splitWSAux : Str → Str → List Str
  | [], acc => if acc.isEmpty then [] else [acc.reverse]
  | c :: rest, acc =>
    if pyIsSpace c then
      if acc.isEmpty then splitWSAux rest [] else acc.reverse :: splitWSAux rest []
    else splitWSAux rest (c :: acc)

/-- Python `str.split()` (split on whitespace runs, no empty fields). -/
def pySplitWS (s : Str) : List Str := splitWSAux s []

/-- Python `str.isupper()` for a whole string, ASCII cased characters:
at least one letter and no lowercase letter. -/
def pyIsUpperStr (s : Str) : Bool :=
  s.any (fun c => c.isAlpha) && !(s.any (fun c => c.isLower))

/-- Decimal digits of a natural number as characters (for f-string
interpolation of indices). -/
def natToChars (n : Nat) : Str := (Nat.repr n).toList

/-- `List.dropWhile` drops an initial segment. -/
theorem dropWhile_eq_drop_len (p : Char → Bool) :
    ∀ (l : Str), l.dropWhile p = l.drop (l.takeWhile p).length := by
  intro l
  induction l with
  | nil => rfl
  | cons c rest ih =>
    by_cases h : p c
    · simp [List.dropWhile, List.takeWhile, h, ih]
    · simp [List.dropWhile, List.takeWhile, h]

/-- `pyRStrip` is a prefix-taking operation. -/
theorem pyRStrip_eq_take (s : Str) :
    pyRStrip s = s.take (s.length - (s.reverse.takeWhile pyIsSpace).length) := by
  unfold pyRStrip
  rw [dropWhile_eq_drop_len, List.reverse_drop]
  simp

/-! ### The regex-fallback tokenizer

`TOKEN_RE = re.compile(r"\w+|[^\w\s]")` together with `re.finditer` performs
maximal-munch scanning: at each position, a maximal run of word characters is
one match, any other non-space character is a single-character match, spaces
match nothing.  `scanAux` is this scanner written as a single left-to-right
pass; `i` is the absolute position of the head of the remaining input and the
accumulator holds the start position of a pending word run.  Matches are
returned as `(start, end)` character spans, exactly like `m.span()`. -/

def scanAux : Str → Nat → Option Nat → List (Nat × Nat)
  | [], _, none => []
  | [], i, some s => [(s, i)]
  | c :: rest, i, none =>
    if isWordChar c then scanAux rest (i + 1) (some i)
    else if pyIsSpace c then scanAux rest (i + 1) none
    else (i, i + 1) :: scanAux rest (i + 1) none
  | c :: rest, i, some s =>
    if isWordChar c then scanAux rest (i + 1) (some s)
    else if pyIsSpace c then (s, i) :: scanAux rest (i + 1) none
    else (s, i) :: (i, i + 1) :: scanAux rest (i + 1) none

/-- The spans of `TOKEN_RE.finditer(text)` (`list(TOKEN_RE.finditer(text))`
with each match abstracted to its `span()`). -/
def reMatches (s : Str) : List (Nat × Nat) := scanAux s 0 none

/-- `len(TOKEN_RE.findall(text))`: the number of fallback regex tokens. -/
def regexTokenCount (s : Str) : Nat := (reMatches s).length

/-- `chunking.py::count_tokens` in the regex-fallback configuration:
`int(len(TOKEN_RE.findall(text)) * 1.2 + 0.5)` (exact integer form). -/
def countTokens (s : Str) : Nat :=
  if s.isEmpty then 0 else (12 * regexTokenCount s + 5) / 10

/-- Token-counting state machine used to reason about `scanAux` lengths:
the `Bool` records whether a word run is pending. -/
def countAux : Str → Bool → Nat
  | [], b => if b then 1 else 0
  | c :: rest, b =>
    if isWordChar c then countAux rest true
    else if pyIsSpace c then (if b then 1 else 0) + countAux rest false
    else (if b then 1 else 0) + 1 + countAux rest false

/-- The number of matches of the scanner depends only on the text and on
whether a word run is pending, not on the position counters. -/
theorem scanAux_length (cs : Str) : ∀ (i : Nat) (acc : Option Nat),
    (scanAux cs i acc).length = countAux cs acc.isSome := by
  induction cs with
  | nil => intro i acc; cases acc <;> rfl
  | cons c rest ih =>
    intro i acc
    cases acc with
    | none =>
      by_cases hw : isWordChar c
      · simp [scanAux, countAux, hw, ih]
      · by_cases hs : pyIsSpace c <;> simp [scanAux, countAux, hw, hs, ih] <;> omega
    | some s =>
      by_cases hw : isWordChar c
      · simp [scanAux, countAux, hw, ih]
      · by_cases hs : pyIsSpace c <;> simp [scanAux, countAux, hw, hs, ih] <;> omega

theorem regexTokenCount_eq_countAux (s : Str) : regexTokenCount s = countAux s false :=
  scanAux_length s 0 none

theorem one_le_countAux_true : ∀ (cs : Str), 1 ≤ countAux cs true := by
  intro cs
  induction cs with
  | nil => simp [countAux]
  | cons c rest ih =>
    by_cases hw : isWordChar c
    · simpa [countAux, hw] using ih
    · by_cases hs : pyIsSpace c <;> simp [countAux, hw, hs] <;> omega

theorem countAux_false_le_true : ∀ (cs : Str), countAux cs false ≤ countAux cs true := by
  intro cs
  induction cs with
  | nil => simp [countAux]
  | cons c rest ih =>
    by_cases hw : isWordChar c
    · simp [countAux, hw]
    · by_cases hs : pyIsSpace c <;> simp [countAux, hw, hs]

theorem countAux_tail_le (c : Char) (rest : Str) :
    countAux rest false ≤ countAux (c :: rest) false := by
  by_cases hw : isWordChar c
  · simpa [countAux, hw] using countAux_false_le_true rest
  · by_cases hs : pyIsSpace c <;> simp [countAux, hw, hs]

theorem countAux_drop_le (cs : Str) : ∀ (n : Nat),
    countAux (cs.drop n) false ≤ countAux cs false := by
  induction cs with
  | nil => intro n; simp
  | cons c rest ih =>
    intro n
    cases n with
    | zero => simp
    | succ m =>
      calc countAux ((c :: rest).drop (m + 1)) false = countAux (rest.drop m) false := by rfl
        _ ≤ countAux rest false := ih m
        _ ≤ countAux (c :: rest) false := countAux_tail_le c rest

theorem pending_le_countAux (cs : Str) (b : Bool) :
    (if b then 1 else 0) ≤ countAux cs b := by
  cases b
  · simp
  · simpa using one_le_countAux_true cs

theorem countAux_take_le (cs : Str) : ∀ (n : Nat) (b : Bool),
    countAux (cs.take n) b ≤ countAux cs b := by
  induction cs with
  | nil => intro n b; simp
  | cons c rest ih =>
    intro n b
    cases n with
    | zero =>
      simpa [countAux] using pending_le_countAux (c :: rest) b
    | succ m =>
      by_cases hw : isWordChar c
      · simpa [countAux, hw] using ih m true
      · by_cases hs : pyIsSpace c
        · simpa [countAux, hw, hs] using ih m false
        · simpa [countAux, hw, hs] using ih m false

theorem countAux_dropWhile_le (p : Char → Bool) (cs : Str) :
    countAux (cs.dropWhile p) false ≤ countAux cs false := by
  rw [dropWhile_eq_drop_len]
  exact countAux_drop_le cs _

theorem regexTokenCount_take_le (cs : Str) (n : Nat) :
    regexTokenCount (cs.take n) ≤ regexTokenCount cs := by
  simpa [regexTokenCount_eq_countAux] using countAux_take_le cs n false

theorem regexTokenCount_drop_le (cs : Str) (n : Nat) :
    regexTokenCount (cs.drop n) ≤ regexTokenCount cs := by
  simpa [regexTokenCount_eq_countAux] using countAux_drop_le cs n

theorem regexTokenCount_lstrip_le (s : Str) :
    regexTokenCount (pyLStrip s) ≤ regexTokenCount s := by
  simpa [regexTokenCount_eq_countAux, pyLStrip] using countAux_dropWhile_le pyIsSpace s

theorem regexTokenCount_rstrip_le (s : Str) :
    regexTokenCount (pyRStrip s) ≤ regexTokenCount s := by
  rw [pyRStrip_eq_take]
  exact regexTokenCount_take_le s _

theorem regexTokenCount_strip_le (s : Str) :
    regexTokenCount (pyStrip s) ≤ regexTokenCount s :=
  le_trans (regexTokenCount_rstrip_le (pyLStrip s)) (regexTokenCount_lstrip_le s)

theorem regexTokenCount_slice_le (cs : Str) (a b : Nat) :
    regexTokenCount (pySlice cs a b) ≤ regexTokenCount cs :=
  le_trans (regexTokenCount_take_le (cs.drop a) (b - a)) (regexTokenCount_drop_le cs a)

theorem regexTokenCount_le_countTokens (s : Str) :
    regexTokenCount s ≤ countTokens s := by
  unfold countTokens
  by_cases h : s.isEmpty
  · cases s with
    | nil => simp [h, regexTokenCount, reMatches, scanAux]
    | cons c rest => simp [List.isEmpty] at h
  · simp only [h, Bool.false_eq_true, if_false]
    omega

theorem countTokens_mono {a b : Str}
    (h : regexTokenCount a ≤ regexTokenCount b) : countTokens a ≤ countTokens b := by
  unfold countTokens
  by_cases ha : a.isEmpty
  · simp [ha]
  · by_cases hb : b.isEmpty
    · have hb0 : regexTokenCount b = 0 := by
        cases b with
        | nil => simp [regexTokenCount, reMatches, scanAux]
        | cons c rest => simp [List.isEmpty] at hb
      simp only [ha, hb, Bool.false_eq_true, if_true, if_false]
      omega
    · simp only [ha, hb, Bool.false_eq_true, if_false]
      omega

/-- A scan with a pending word run emits that run first. -/
theorem scanAux_pending_head (cs : Str) : ∀ (i s : Nat), ∃ e r,
    scanAux cs i (some s) = (s, e) :: r ∧ i ≤ e := by
  induction cs with
  | nil =>
    intro i s
    exact ⟨i, [], rfl, le_refl i⟩
  | cons c rest ih =>
    intro i s
    by_cases hw : isWordChar c
    · obtain ⟨e, r, heq, hle⟩ := ih (i + 1) s
      exact ⟨e, r, by simp [scanAux, hw, heq], by omega⟩
    · by_cases hs : pyIsSpace c
      · exact ⟨i, scanAux rest (i + 1) none, by simp [scanAux, hw, hs], le_refl i⟩
      · exact ⟨i, (i, i + 1) :: scanAux rest (i + 1) none, by simp [scanAux, hw, hs], le_refl i⟩

/-- Every span emitted by a fresh scan at absolute position `i` starts at or
after `i` and ends after `i`; spans after a pending run behave likewise. -/
theorem scanAux_bounds (cs : Str) : ∀ (i : Nat),
    (∀ p ∈ scanAux cs i none, i ≤ p.1 ∧ i + 1 ≤ p.2) ∧
    (∀ (s : Nat), ∀ p ∈ (scanAux cs i (some s)).tail, i ≤ p.1 ∧ i + 1 ≤ p.2) := by
  induction cs with
  | nil =>
    intro i
    constructor
    · intro p hp; simp [scanAux] at hp
    · intro s p hp; simp [scanAux] at hp
  | cons c rest ih =>
    intro i
    constructor
    · intro p hp
      by_cases hw : isWordChar c
      · simp only [scanAux, hw, if_true] at hp
        obtain ⟨e, r, heq, hle⟩ := scanAux_pending_head rest (i + 1) i
        rw [heq] at hp
        rcases List.mem_cons.mp hp with hp | hp
        · subst hp; exact ⟨le_refl i, by omega⟩
        · have := (ih (i + 1)).2 i p (by rw [heq]; simpa using hp)
          omega
      · by_cases hs : pyIsSpace c
        · simp only [scanAux, hw, hs, if_true, if_false, Bool.false_eq_true] at hp
          have := (ih (i + 1)).1 p hp
          omega
        · simp only [scanAux, hw, hs, if_false, Bool.false_eq_true, List.mem_cons] at hp
          rcases hp with hp | hp
          · subst hp; exact ⟨le_refl i, le_refl (i + 1)⟩
          · have := (ih (i + 1)).1 p hp
            omega
    · intro s p hp
      by_cases hw : isWordChar c
      · simp only [scanAux, hw, if_true] at hp
        have := (ih (i + 1)).2 s p hp
        omega
      · by_cases hs : pyIsSpace c
        · simp only [scanAux, hw, hs, if_true, if_false, Bool.false_eq_true, List.tail_cons] at hp
          have := (ih (i + 1)).1 p hp
          omega
        · simp only [scanAux, hw, hs, if_false, Bool.false_eq_true, List.tail_cons,
            List.mem_cons] at hp
          rcases hp with hp | hp
          · subst hp; exact ⟨le_refl i, le_refl (i + 1)⟩
          · have := (ih (i + 1)).1 p hp
            omega

theorem scanAux_none_get_start_lb (cs : Str) (i k : Nat)
    (h : k < (scanAux cs i none).length) :
    i ≤ ((scanAux cs i none).get ⟨k, h⟩).1 :=
  ((scanAux_bounds cs i).1 _ (List.get_mem _ k h)).1

theorem scanAux_none_get_end_lb (cs : Str) (i k : Nat)
    (h : k < (scanAux cs i none).length) :
    i + 1 ≤ ((scanAux cs i none).get ⟨k, h⟩).2 :=
  ((scanAux_bounds cs i).1 _ (List.get_mem _ k h)).2

theorem scanAux_some_get_start_lb (cs : Str) (i s k : Nat) (hk : 1 ≤ k)
    (h : k < (scanAux cs i (some s)).length) :
    i ≤ ((scanAux cs i (some s)).get ⟨k, h⟩).1 := by
  have hb := (scanAux_bounds cs i).2 s
  obtain ⟨e, r, heq, -⟩ := scanAux_pending_head cs i s
  revert h
  rw [heq]
  rw [heq] at hb
  intro h
  obtain ⟨k', rfl⟩ : ∃ k', k = k' + 1 := ⟨k - 1, by omega⟩
  have hget : ((s, e) :: r).get ⟨k' + 1, h⟩ = r.get ⟨k', by simpa using h⟩ := by simp
  rw [hget]
  exact (hb _ (List.get_mem r k' (by simpa using h))).1

theorem scanAux_some_get_end_lb (cs : Str) (i s k : Nat)
    (h : k < (scanAux cs i (some s)).length) :
    i ≤ ((scanAux cs i (some s)).get ⟨k, h⟩).2 := by
  have hb := (scanAux_bounds cs i).2 s
  obtain ⟨e, r, heq, hle⟩ := scanAux_pending_head cs i s
  revert h
  rw [heq]
  rw [heq] at hb
  intro h
  cases k with
  | zero => simpa using hle
  | succ k' =>
    have hget : ((s, e) :: r).get ⟨k' + 1, h⟩ = r.get ⟨k', by simpa using h⟩ := by simp
    rw [hget]
    have := (hb _ (List.get_mem r k' (by simpa using h))).2
    omega

/-- Truncating the input at the end of the `j`-th match truncates the match
list after the `j`-th match. -/
theorem scanAux_take_to_end (cs : Str) : ∀ (i : Nat) (acc : Option Nat)
    (ms : List (Nat × Nat)), ms = scanAux cs i acc →
    ∀ (j : Nat) (h : j < ms.length),
      scanAux (cs.take ((ms.get ⟨j, h⟩).2 - i)) i acc = ms.take (j + 1) := by
  induction cs with
  | nil =>
    intro i acc ms hms j h
    cases acc with
    | none => subst hms; simp [scanAux] at h
    | some s =>
      simp only [scanAux] at hms
      subst hms
      cases j with
      | zero => simp [scanAux]
      | succ j2 => simp at h
  | cons c rest ih =>
    intro i acc ms hms j h
    by_cases hw : isWordChar c
    · cases acc with
      | none =>
        have hinner : ms = scanAux rest (i + 1) (some i) := by simpa [scanAux, hw] using hms
        subst hinner
        have he : i + 1 ≤ ((scanAux rest (i + 1) (some i)).get ⟨j, h⟩).2 :=
          scanAux_some_get_end_lb rest (i + 1) i j h
        have hsub : ((scanAux rest (i + 1) (some i)).get ⟨j, h⟩).2 - i
            = (((scanAux rest (i + 1) (some i)).get ⟨j, h⟩).2 - (i + 1)) + 1 := by omega
        rw [hsub, List.take_succ_cons]
        have hstep : ∀ (X : Str), scanAux (c :: X) i none = scanAux X (i + 1) (some i) := by
          intro X; simp [scanAux, hw]
        rw [hstep]
        exact ih (i + 1) (some i) _ rfl j h
      | some s =>
        have hinner : ms = scanAux rest (i + 1) (some s) := by simpa [scanAux, hw] using hms
        subst hinner
        have he : i + 1 ≤ ((scanAux rest (i + 1) (some s)).get ⟨j, h⟩).2 :=
          scanAux_some_get_end_lb rest (i + 1) s j h
        have hsub : ((scanAux rest (i + 1) (some s)).get ⟨j, h⟩).2 - i
            = (((scanAux rest (i + 1) (some s)).get ⟨j, h⟩).2 - (i + 1)) + 1 := by omega
        rw [hsub, List.take_succ_cons]
        have hstep : ∀ (X : Str), scanAux (c :: X) i (some s) = scanAux X (i + 1) (some s) := by
          intro X; simp [scanAux, hw]
        rw [hstep]
        exact ih (i + 1) (some s) _ rfl j h
    · by_cases hs : pyIsSpace c
      · cases acc with
        | none =>
          have hinner : ms = scanAux rest (i + 1) none := by simpa [scanAux, hw, hs] using hms
          subst hinner
          have he : i + 2 ≤ ((scanAux rest (i + 1) none).get ⟨j, h⟩).2 :=
            scanAux_none_get_end_lb rest (i + 1) j h
          have hsub : ((scanAux rest (i + 1) none).get ⟨j, h⟩).2 - i
              = (((scanAux rest (i + 1) none).get ⟨j, h⟩).2 - (i + 1)) + 1 := by omega
          rw [hsub, List.take_succ_cons]
          have hstep : ∀ (X : Str), scanAux (c :: X) i none = scanAux X (i + 1) none := by
            intro X; simp [scanAux, hw, hs]
          rw [hstep]
          exact ih (i + 1) none _ rfl j h
        | some s =>
          have hinner : ms = (s, i) :: scanAux rest (i + 1) none := by
            simpa [scanAux, hw, hs] using hms
          subst hinner
          cases j with
          | zero => simp [scanAux]
          | succ j' =>
            have h' : j' < (scanAux rest (i + 1) none).length := by simpa using h
            have hget : (((s, i) :: scanAux rest (i + 1) none).get ⟨j' + 1, h⟩)
                = (scanAux rest (i + 1) none).get ⟨j', h'⟩ := by simp
            rw [hget]
            have he : i + 2 ≤ ((scanAux rest (i + 1) none).get ⟨j', h'⟩).2 :=
              scanAux_none_get_end_lb rest (i + 1) j' h'
            have hsub : ((scanAux rest (i + 1) none).get ⟨j', h'⟩).2 - i
                = (((scanAux rest (i + 1) none).get ⟨j', h'⟩).2 - (i + 1)) + 1 := by omega
            rw [hsub, List.take_succ_cons]
            have hstep : ∀ (X : Str), scanAux (c :: X) i (some s)
                = (s, i) :: scanAux X (i + 1) none := by
              intro X; simp [scanAux, hw, hs]
            rw [hstep]
            have := ih (i + 1) none (scanAux rest (i + 1) none) rfl j' h'
            rw [this]
            simp
      · cases acc with
        | none =>
          have hinner : ms = (i, i + 1) :: scanAux rest (i + 1) none := by
            simpa [scanAux, hw, hs] using hms
          subst hinner
          cases j with
          | zero =>
            have h1 : ((((i, i + 1) :: scanAux rest (i + 1) none).get ⟨0, h⟩).2 - i) = 1 := by
              show i + 1 - i = 1
              omega
            rw [h1]
            simp [scanAux, hw, hs]
          | succ j' =>
            have h' : j' < (scanAux rest (i + 1) none).length := by simpa using h
            have hget : (((i, i + 1) :: scanAux rest (i + 1) none).get ⟨j' + 1, h⟩)
                = (scanAux rest (i + 1) none).get ⟨j', h'⟩ := by simp
            rw [hget]
            have he : i + 2 ≤ ((scanAux rest (i + 1) none).get ⟨j', h'⟩).2 :=
              scanAux_none_get_end_lb rest (i + 1) j' h'
            have hsub : ((scanAux rest (i + 1) none).get ⟨j', h'⟩).2 - i
                = (((scanAux rest (i + 1) none).get ⟨j', h'⟩).2 - (i + 1)) + 1 := by omega
            rw [hsub, List.take_succ_cons]
            have hstep : ∀ (X : Str), scanAux (c :: X) i none
                = (i, i + 1) :: scanAux X (i + 1) none := by
              intro X; simp [scanAux, hw, hs]
            rw [hstep]
            have := ih (i + 1) none (scanAux rest (i + 1) none) rfl j' h'
            rw [this]
            simp
        | some s =>
          have hinner : ms = (s, i) :: (i, i + 1) :: scanAux rest (i + 1) none := by
            simpa [scanAux, hw, hs] using hms
          subst hinner
          match j, h with
          | 0, h =>
            have h1 : ((((s, i) :: (i, i + 1) :: scanAux rest (i + 1) none).get ⟨0, h⟩).2 - i)
                = 0 := by
              show i - i = 0
              omega
            rw [h1]
            simp [scanAux]
          | 1, h =>
            have h1 : ((((s, i) :: (i, i + 1) :: scanAux rest (i + 1) none).get ⟨1, h⟩).2 - i)
                = 1 := by
              show i + 1 - i = 1
              omega
            rw [h1]
            simp [scanAux, hw, hs]
          | j' + 2, h =>
            have h' : j' < (scanAux rest (i + 1) none).length := by simpa using h
            have hget : (((s, i) :: (i, i + 1) :: scanAux rest (i + 1) none).get ⟨j' + 2, h⟩)
                = (scanAux rest (i + 1) none).get ⟨j', h'⟩ := by simp
            rw [hget]
            have he : i + 2 ≤ ((scanAux rest (i + 1) none).get ⟨j', h'⟩).2 :=
              scanAux_none_get_end_lb rest (i + 1) j' h'
            have hsub : ((scanAux rest (i + 1) none).get ⟨j', h'⟩).2 - i
                = (((scanAux rest (i + 1) none).get ⟨j', h'⟩).2 - (i + 1)) + 1 := by omega
            rw [hsub, List.take_succ_cons]
            have hstep : ∀ (X : Str), scanAux (c :: X) i (some s)
                = (s, i) :: (i, i + 1) :: scanAux X (i + 1) none := by
              intro X; simp [scanAux, hw, hs]
            rw [hstep]
            have := ih (i + 1) none (scanAux rest (i + 1) none) rfl j' h'
            rw [this]
            simp

/-- Restarting the scanner at the start position of the `k`-th match
reproduces the matches from `k` on.  The second conjunct covers scans with a
pending word run (whose first match may start before the scanned suffix). -/
theorem scanAux_restart (cs : Str) : ∀ (i : Nat) (ms : List (Nat × Nat)),
    (ms = scanAux cs i none →
       ∀ (k : Nat) (h : k < ms.length),
         scanAux (cs.drop ((ms.get ⟨k, h⟩).1 - i)) ((ms.get ⟨k, h⟩).1) none = ms.drop k) ∧
    (∀ (s : Nat), ms = scanAux cs i (some s) →
       ∀ (k : Nat) (h : k < ms.length), 1 ≤ k →
         scanAux (cs.drop ((ms.get ⟨k, h⟩).1 - i)) ((ms.get ⟨k, h⟩).1) none = ms.drop k) := by
  induction cs with
  | nil =>
    intro i ms
    constructor
    · intro hms k h
      simp only [scanAux] at hms
      subst hms
      simp at h
    · intro s hms k h hk
      simp only [scanAux] at hms
      subst hms
      simp at h
      omega
  | cons c rest ih =>
    intro i ms
    constructor
    · intro hms k h
      by_cases hw : isWordChar c
      · have hms2 : ms = scanAux rest (i + 1) (some i) := by simpa [scanAux, hw] using hms
        obtain ⟨e, r, heq, hle⟩ := scanAux_pending_head rest (i + 1) i
        rw [heq] at hms2
        subst hms2
        cases k with
        | zero =>
          show scanAux ((c :: rest).drop (i - i)) i none = ((i, e) :: r).drop 0
          rw [Nat.sub_self, List.drop_zero]
          simp [scanAux, hw, heq]
        | succ k2 =>
          have h2 : k2 < r.length := by simpa using h
          have hget : ((i, e) :: r).get ⟨k2 + 1, h⟩ = r.get ⟨k2, h2⟩ := by simp
          have hb := (scanAux_bounds rest (i + 1)).2 i
          rw [heq] at hb
          have hx : i + 1 ≤ (r.get ⟨k2, h2⟩).1 := (hb _ (List.get_mem r k2 h2)).1
          have hih := (ih (i + 1) ((i, e) :: r)).2 i heq.symm (k2 + 1) h (by omega)
          rw [hget] at hih
          rw [hget]
          have hxi : (r.get ⟨k2, h2⟩).1 - i = ((r.get ⟨k2, h2⟩).1 - (i + 1)) + 1 := by omega
          rw [hxi, List.drop_succ_cons]
          exact hih
      · by_cases hs : pyIsSpace c
        · have hms2 : ms = scanAux rest (i + 1) none := by simpa [scanAux, hw, hs] using hms
          subst hms2
          have hx : i + 1 ≤ ((scanAux rest (i + 1) none).get ⟨k, h⟩).1 :=
            scanAux_none_get_start_lb rest (i + 1) k h
          have hxi : ((scanAux rest (i + 1) none).get ⟨k, h⟩).1 - i
              = (((scanAux rest (i + 1) none).get ⟨k, h⟩).1 - (i + 1)) + 1 := by omega
          rw [hxi, List.drop_succ_cons]
          exact (ih (i + 1) _).1 rfl k h
        · have hms2 : ms = (i, i + 1) :: scanAux rest (i + 1) none := by
            simpa [scanAux, hw, hs] using hms
          subst hms2
          cases k with
          | zero =>
            show scanAux ((c :: rest).drop (i - i)) i none
                = ((i, i + 1) :: scanAux rest (i + 1) none).drop 0
            rw [Nat.sub_self, List.drop_zero]
            simp [scanAux, hw, hs]
          | succ k2 =>
            have h2 : k2 < (scanAux rest (i + 1) none).length := by simpa using h
            have hget : ((i, i + 1) :: scanAux rest (i + 1) none).get ⟨k2 + 1, h⟩
                = (scanAux rest (i + 1) none).get ⟨k2, h2⟩ := by simp
            rw [hget]
            have hx : i + 1 ≤ ((scanAux rest (i + 1) none).get ⟨k2, h2⟩).1 :=
              scanAux_none_get_start_lb rest (i + 1) k2 h2
            have hxi : ((scanAux rest (i + 1) none).get ⟨k2, h2⟩).1 - i
                = (((scanAux rest (i + 1) none).get ⟨k2, h2⟩).1 - (i + 1)) + 1 := by omega
            rw [hxi, List.drop_succ_cons, List.drop_succ_cons]
            exact (ih (i + 1) _).1 rfl k2 h2
    · intro s hms k h hk
      by_cases hw : isWordChar c
      · have hms2 : ms = scanAux rest (i + 1) (some s) := by simpa [scanAux, hw] using hms
        obtain ⟨e, r, heq, hle⟩ := scanAux_pending_head rest (i + 1) s
        rw [heq] at hms2
        subst hms2
        obtain ⟨k2, rfl⟩ : ∃ k2, k = k2 + 1 := ⟨k - 1, by omega⟩
        have h2 : k2 < r.length := by simpa using h
        have hget : ((s, e) :: r).get ⟨k2 + 1, h⟩ = r.get ⟨k2, h2⟩ := by simp
        have hb := (scanAux_bounds rest (i + 1)).2 s
        rw [heq] at hb
        have hx : i + 1 ≤ (r.get ⟨k2, h2⟩).1 := (hb _ (List.get_mem r k2 h2)).1
        have hih := (ih (i + 1) ((s, e) :: r)).2 s heq.symm (k2 + 1) h (by omega)
        rw [hget] at hih
        rw [hget]
        have hxi : (r.get ⟨k2, h2⟩).1 - i = ((r.get ⟨k2, h2⟩).1 - (i + 1)) + 1 := by omega
        rw [hxi, List.drop_succ_cons]
        exact hih
      · by_cases hs : pyIsSpace c
        · have hms2 : ms = (s, i) :: scanAux rest (i + 1) none := by
            simpa [scanAux, hw, hs] using hms
          subst hms2
          obtain ⟨k2, rfl⟩ : ∃ k2, k = k2 + 1 := ⟨k - 1, by omega⟩
          have h2 : k2 < (scanAux rest (i + 1) none).length := by simpa using h
          have hget : ((s, i) :: scanAux rest (i + 1) none).get ⟨k2 + 1, h⟩
              = (scanAux rest (i + 1) none).get ⟨k2, h2⟩ := by simp
          rw [hget]
          have hx : i + 1 ≤ ((scanAux rest (i + 1) none).get ⟨k2, h2⟩).1 :=
            scanAux_none_get_start_lb rest (i + 1) k2 h2
          have hxi : ((scanAux rest (i + 1) none).get ⟨k2, h2⟩).1 - i
              = (((scanAux rest (i + 1) none).get ⟨k2, h2⟩).1 - (i + 1)) + 1 := by omega
          rw [hxi, List.drop_succ_cons, List.drop_succ_cons]
          exact (ih (i + 1) _).1 rfl k2 h2
        · have hms2 : ms = (s, i) :: (i, i + 1) :: scanAux rest (i + 1) none := by
            simpa [scanAux, hw, hs] using hms
          subst hms2
          match k, h, hk with
          | 1, h, hk =>
            show scanAux ((c :: rest).drop (i - i)) i none
                = ((s, i) :: (i, i + 1) :: scanAux rest (i + 1) none).drop 1
            rw [Nat.sub_self, List.drop_zero]
            simp [scanAux, hw, hs]
          | k2 + 2, h, hk =>
            have h2 : k2 < (scanAux rest (i + 1) none).length := by simpa using h
            have hget : ((s, i) :: (i, i + 1) :: scanAux rest (i + 1) none).get ⟨k2 + 2, h⟩
                = (scanAux rest (i + 1) none).get ⟨k2, h2⟩ := by simp
            rw [hget]
            have hx : i + 1 ≤ ((scanAux rest (i + 1) none).get ⟨k2, h2⟩).1 :=
              scanAux_none_get_start_lb rest (i + 1) k2 h2
            have hxi : ((scanAux rest (i + 1) none).get ⟨k2, h2⟩).1 - i
                = (((scanAux rest (i + 1) none).get ⟨k2, h2⟩).1 - (i + 1)) + 1 := by omega
            rw [hxi, List.drop_succ_cons]
            show scanAux (rest.drop _) _ none
                = ((i, i + 1) :: scanAux rest (i + 1) none).drop (k2 + 1)
            rw [List.drop_succ_cons]
            exact (ih (i + 1) _).1 rfl k2 h2

theorem get_drop_eq {α : Type} (l : List α) (i j : Nat) (h1 : i + j < l.length)
    (h2 : j < (l.drop i).length) : (l.drop i).get ⟨j, h2⟩ = l.get ⟨i + j, h1⟩ :=
  Eq.symm (List.get_drop l h1)

/-- The text slice `text[matches[k].start : matches[j].end]` contains exactly
the regex tokens `k..j`: its fallback token count is `j - k + 1`. -/
theorem regexTokenCount_span (cs : Str) (k j : Nat)
    (hk : k ≤ j) (hj : j < (reMatches cs).length) (hK : k < (reMatches cs).length) :
    regexTokenCount
        (pySlice cs (((reMatches cs).get ⟨k, hK⟩).1) (((reMatches cs).get ⟨j, hj⟩).2))
      = j - k + 1 := by
  have hA := (scanAux_restart cs 0 (reMatches cs)).1 rfl k hK
  rw [Nat.sub_zero] at hA
  have hjk : j - k < ((reMatches cs).drop k).length := by
    rw [List.length_drop]
    omega
  have hx : k + (j - k) < (reMatches cs).length := by omega
  have hb : ((reMatches cs).drop k).get ⟨j - k, hjk⟩ = (reMatches cs).get ⟨j, hj⟩ := by
    rw [get_drop_eq (reMatches cs) k (j - k) hx hjk]
    have hfin : (⟨k + (j - k), hx⟩ : Fin (reMatches cs).length) = ⟨j, hj⟩ := by
      apply Fin.ext
      simp
      omega
    rw [hfin]
  have hB := scanAux_take_to_end (cs.drop (((reMatches cs).get ⟨k, hK⟩).1))
    (((reMatches cs).get ⟨k, hK⟩).1) none ((reMatches cs).drop k) hA.symm (j - k) hjk
  rw [hb] at hB
  have hcount : regexTokenCount
      (pySlice cs (((reMatches cs).get ⟨k, hK⟩).1) (((reMatches cs).get ⟨j, hj⟩).2))
      = (scanAux (pySlice cs (((reMatches cs).get ⟨k, hK⟩).1)
          (((reMatches cs).get ⟨j, hj⟩).2)) (((reMatches cs).get ⟨k, hK⟩).1) none).length := by
    rw [regexTokenCount_eq_countAux]
    rw [scanAux_length]
    rfl
  rw [hcount]
  show (scanAux ((cs.drop (((reMatches cs).get ⟨k, hK⟩).1)).take
      ((((reMatches cs).get ⟨j, hj⟩).2) - (((reMatches cs).get ⟨k, hK⟩).1)))
      (((reMatches cs).get ⟨k, hK⟩).1) none).length = j - k + 1
  rw [hB]
  rw [List.length_take, List.length_drop]
  omega

/-! ### `chunking.py`: the module-level token-budget splitter (regex path)

`pipeline.py` imports `count_tokens` and `split_text_by_tokens` from this
module.  Only the regex-fallback configuration (`_TOKENIZER is None`) is
embedded; the BPE branch delegates to the external `tiktoken` library. -/

/-- The character class of `SENTENCE_BREAK_RE = [.!?;:]\s+`. -/
def isSentencePunct (c : Char) : Bool :=
  c = '.' || c = '!' || c = '?' || c = ';' || c = ':'

def headIsSpace : Str → Bool
  | [] => false
  | d :: _ => pyIsSpace d

/-- `SENTENCE_BREAK_RE.search(s)`, returning `match.end()` (the end of the
greedy whitespace run after the leftmost punctuation-then-space position). -/
def searchSentenceBreakAux : Str → Nat → Option Nat
  | [], _ => none
  | c :: rest, i =>
    if isSentencePunct c && headIsSpace rest then
      some (i + 1 + (rest.takeWhile pyIsSpace).length)
    else searchSentenceBreakAux rest (i + 1)

def searchSentenceBreak (s : Str) : Option Nat := searchSentenceBreakAux s 0

/-- Body of `chunking.py::_strip_fragment_prefix` after `cleaned =
text.strip()` (the service file carries an identical copy). -/
def stripFragmentLeadCore (cleaned : Str) (isFirstChunk : Bool) : Str :=
  if cleaned.isEmpty then []
  else if isFirstChunk then cleaned
  else if ("Table:".toList).isPrefixOf cleaned || ("#".toList).isPrefixOf cleaned
      || ("- ".toList).isPrefixOf cleaned || ("* ".toList).isPrefixOf cleaned then cleaned
  else if (cleaned.headD ' ').isUpper || (cleaned.headD ' ').isDigit then cleaned
  else
    match searchSentenceBreak (cleaned.take 220) with
    | none => cleaned
    | some e =>
      let candidate := pyLStrip (cleaned.drop e)
      if candidate.length < 24 then cleaned else candidate

/-- `chunking.py::_strip_fragment_prefix`. -/
def stripFragmentLead (text : Str) (isFirstChunk : Bool) : Str :=
  stripFragmentLeadCore (pyStrip text) isFirstChunk

theorem regexTokenCount_nil : regexTokenCount [] = 0 := rfl

theorem stripFragmentLeadCore_count_le (cleaned : Str) (b : Bool) :
    regexTokenCount (stripFragmentLeadCore cleaned b) ≤ regexTokenCount cleaned := by
  have hcand : ∀ e, regexTokenCount (pyLStrip (cleaned.drop e)) ≤ regexTokenCount cleaned :=
    fun e => le_trans (regexTokenCount_lstrip_le _) (regexTokenCount_drop_le _ e)
  unfold stripFragmentLeadCore
  split
  · simp [regexTokenCount_nil]
  · split
    · exact le_refl _
    · split
      · exact le_refl _
      · split
        · exact le_refl _
        · split
          · exact le_refl _
          · dsimp only
            split
            · exact le_refl _
            · exact hcand _

theorem stripFragmentLead_count_le (t : Str) (b : Bool) :
    regexTokenCount (stripFragmentLead t b) ≤ regexTokenCount t :=
  le_trans (stripFragmentLeadCore_count_le (pyStrip t) b) (regexTokenCount_strip_le t)

/-- `chunking.py::_rebalance_tiny_tail` (the service method is identical). -/
def rebalanceTinyTail (chunks : List Str) (targetTokens maxTokens : Nat) : List Str :=
  if chunks.length < 2 then chunks
  else
    let tailThreshold := max 20 (targetTokens / 6)
    if tailThreshold ≤ countTokens (chunks.getLastD []) then chunks
    else
      let merged := pyRStrip (chunks.dropLast.getLastD []) ++ ('\n' :: '\n' :: [])
        ++ pyLStrip (chunks.getLastD [])
      if maxTokens < countTokens merged then chunks
      else chunks.dropLast.dropLast ++ [merged]

theorem rebalanceTinyTail_count_le (chunks : List Str) (t m : Nat)
    (h : ∀ c ∈ chunks, regexTokenCount c ≤ m) :
    ∀ c ∈ rebalanceTinyTail chunks t m, regexTokenCount c ≤ m := by
  intro c hc
  unfold rebalanceTinyTail at hc
  dsimp only at hc
  split at hc
  · exact h c hc
  · split at hc
    · exact h c hc
    · split at hc
      · exact h c hc
      · rename_i hmerged
        rcases List.mem_append.mp hc with hc | hc
        · exact h c (List.dropLast_subset _ (List.dropLast_subset _ hc))
        · have hc2 : c = pyRStrip (chunks.dropLast.getLastD []) ++ ('\n' :: '\n' :: [])
              ++ pyLStrip (chunks.getLastD []) := by simpa using hc
          subst hc2
          have h1 := regexTokenCount_le_countTokens (pyRStrip (chunks.dropLast.getLastD [])
            ++ ('\n' :: '\n' :: []) ++ pyLStrip (chunks.getLastD []))
          omega

/-- `chunking.py::_fallback_budget`: `max(1, int(value / 1.2))`
(`int` truncates toward zero). -/
def fallbackBudget (v : Int) : Nat :=
  if v ≤ 0 then 1 else max 1 (5 * v.toNat / 6)

theorem fallbackBudget_mono {a b : Int} (h : a ≤ b) :
    fallbackBudget a ≤ fallbackBudget b := by
  unfold fallbackBudget
  split
  · split
    · exact le_refl 1
    · omega
  · split
    · omega
    · have : a.toNat ≤ b.toNat := by omega
      have : 5 * a.toNat / 6 ≤ 5 * b.toNat / 6 := by omega
      omega

/-- The loop of `chunking.py::_split_text_by_regex_tokens`; `fuel` bounds the
iteration count (`start` strictly increases, so `tc + 1` iterations cover
every run of the Python `while`). -/
def splitRegexLoopRoot (cs : Str) (ms : List (Nat × Nat)) (tc t m o : Nat) :
    Nat → Nat → List Str → List Str
  | 0, _, out => out
  | fuel + 1, start, out =>
    if start < tc then
      let e := if tc - start ≤ m then tc else min (start + t) tc
      if e ≤ start then out
      else
        let chunkRaw := pySlice cs ((ms.getD start (0, 0)).1) ((ms.getD (e - 1) (0, 0)).2)
        let chunkText := stripFragmentLead chunkRaw out.isEmpty
        let out2 := if chunkText.isEmpty then out else out ++ [chunkText]
        if tc ≤ e then out2
        else
          let ns := e - o
          let ns2 := if ns ≤ start then e else ns
          splitRegexLoopRoot cs ms tc t m o fuel ns2 out2
    else out

theorem span_chunk_le (cs : Str) (m start e : Nat)
    (h1 : start < (reMatches cs).length) (h2 : e ≤ (reMatches cs).length)
    (h3 : start < e) (h4 : e - start ≤ m) :
    regexTokenCount (pySlice cs (((reMatches cs).getD start (0, 0)).1)
      (((reMatches cs).getD (e - 1) (0, 0)).2)) ≤ m := by
  have he1 : e - 1 < (reMatches cs).length := by omega
  rw [List.getD_eq_get _ _ h1, List.getD_eq_get _ _ he1]
  rw [regexTokenCount_span cs start (e - 1) (by omega) he1 h1]
  omega

theorem splitRegexLoopRoot_count_le (cs : Str) (t m o : Nat) (ht : t ≤ m) :
    ∀ (fuel : Nat) (start : Nat) (out : List Str),
      (∀ c ∈ out, regexTokenCount c ≤ m) →
      ∀ c ∈ splitRegexLoopRoot cs (reMatches cs) (reMatches cs).length t m o fuel start out,
        regexTokenCount c ≤ m := by
  intro fuel
  induction fuel with
  | zero =>
    intro start out hout c hc
    exact hout c hc
  | succ f ih =>
    intro start out hout c hc
    unfold splitRegexLoopRoot at hc
    dsimp only at hc
    have hbody : ∀ (e : Nat), start < (reMatches cs).length → e ≤ (reMatches cs).length →
        e - start ≤ m →
        ∀ d, d ∈ (if e ≤ start then out
          else
            if (reMatches cs).length ≤ e then
              (if (stripFragmentLead (pySlice cs (((reMatches cs).getD start (0, 0)).1)
                  (((reMatches cs).getD (e - 1) (0, 0)).2)) out.isEmpty).isEmpty then out
                else out ++ [stripFragmentLead (pySlice cs (((reMatches cs).getD start (0, 0)).1)
                  (((reMatches cs).getD (e - 1) (0, 0)).2)) out.isEmpty])
            else
              splitRegexLoopRoot cs (reMatches cs) (reMatches cs).length t m o f
                (if e - o ≤ start then e else e - o)
                (if (stripFragmentLead (pySlice cs (((reMatches cs).getD start (0, 0)).1)
                    (((reMatches cs).getD (e - 1) (0, 0)).2)) out.isEmpty).isEmpty then out
                  else out ++ [stripFragmentLead (pySlice cs (((reMatches cs).getD start (0, 0)).1)
                    (((reMatches cs).getD (e - 1) (0, 0)).2)) out.isEmpty])) →
        regexTokenCount d ≤ m := by
      intro e h1 he2 he4 d hd
      split at hd
      · exact hout d hd
      · rename_i he3
        have hchunk : regexTokenCount (stripFragmentLead
            (pySlice cs (((reMatches cs).getD start (0, 0)).1)
              (((reMatches cs).getD (e - 1) (0, 0)).2)) out.isEmpty) ≤ m :=
          le_trans (stripFragmentLead_count_le _ _)
            (span_chunk_le cs m start e h1 he2 (by omega) he4)
        have hout2 : ∀ d2 ∈ (if (stripFragmentLead
            (pySlice cs (((reMatches cs).getD start (0, 0)).1)
              (((reMatches cs).getD (e - 1) (0, 0)).2)) out.isEmpty).isEmpty then out
            else out ++ [stripFragmentLead (pySlice cs (((reMatches cs).getD start (0, 0)).1)
              (((reMatches cs).getD (e - 1) (0, 0)).2)) out.isEmpty]),
            regexTokenCount d2 ≤ m := by
          intro d2 hd2
          split at hd2
          · exact hout d2 hd2
          · rcases List.mem_append.mp hd2 with hd2 | hd2
            · exact hout d2 hd2
            · have hd3 : d2 = stripFragmentLead
                (pySlice cs (((reMatches cs).getD start (0, 0)).1)
                  (((reMatches cs).getD (e - 1) (0, 0)).2)) out.isEmpty := by simpa using hd2
              subst hd3
              exact hchunk
        split at hd
        · exact hout2 d hd
        · exact ih _ _ hout2 d hd
    split at hc
    · rename_i h1
      split at hc
      · rename_i hrem
        exact hbody ((reMatches cs).length) h1 (le_refl _) (by omega) c hc
      · rename_i hrem
        have hmin1 := Nat.min_le_left (start + t) ((reMatches cs).length)
        have hmin2 := Nat.min_le_right (start + t) ((reMatches cs).length)
        exact hbody (min (start + t) ((reMatches cs).length)) h1 hmin2 (by omega) c hc
    · exact hout c hc

/-- `chunking.py::_split_text_by_regex_tokens`. -/
def splitTextByRegexTokensRoot (text : Str) (t m o : Nat) : List Str :=
  let ms := reMatches text
  let tc := ms.length
  if tc = 0 then []
  else if tc ≤ m then [pyStrip text]
  else rebalanceTinyTail (splitRegexLoopRoot text ms tc t m o (tc + 1) 0 []) t m

/-- Every chunk emitted by the regex splitter holds at most `m` regex
tokens (given a well-formed target). -/
theorem splitTextByRegexTokensRoot_count_le (text : Str) (t m o : Nat) (ht : t ≤ m) :
    ∀ c ∈ splitTextByRegexTokensRoot text t m o, regexTokenCount c ≤ m := by
  intro c hc
  unfold splitTextByRegexTokensRoot at hc
  dsimp only at hc
  split at hc
  · simp at hc
  · split at hc
    · rename_i h0 hle
      have hc2 : c = pyStrip text := by simpa using hc
      subst hc2
      calc regexTokenCount (pyStrip text) ≤ regexTokenCount text := regexTokenCount_strip_le text
        _ ≤ m := hle
    · exact rebalanceTinyTail_count_le _ t m
        (splitRegexLoopRoot_count_le text t m o ht _ 0 [] (by intro d hd; simp at hd)) c hc

/-- `chunking.py::split_text_by_tokens` in the regex-fallback configuration:
budget validation, then the scaled regex split.  `ValueError` is embedded as
`Except.error`. -/
def splitTextByTokens (text : Str) (targetTokens maxTokens overlapTokens : Int) :
    Except String (List Str) :=
  if targetTokens ≤ 0 then Except.error ("target_tokens must be > 0")
  else if maxTokens < targetTokens then Except.error ("max_tokens must be >= target_tokens")
  else if targetTokens ≤ overlapTokens then Except.error ("overlap_tokens must be < target_tokens")
  else
    let safeTarget := fallbackBudget targetTokens
    let safeMax := max safeTarget (fallbackBudget maxTokens)
    let safeOverlap := min (max 1 (fallbackBudget overlapTokens)) (safeTarget - 1)
    Except.ok (splitTextByRegexTokensRoot text safeTarget safeMax safeOverlap)

theorem fallbackBudget_le_self (v : Int) (hv : 1 ≤ v) :
    (fallbackBudget v : Int) ≤ v := by
  unfold fallbackBudget
  split
  · omega
  · have h1 : 5 * v.toNat / 6 ≤ v.toNat := by omega
    have h2 : 1 ≤ v.toNat := by omega
    have := Nat.max_le.mpr ⟨h2, h1⟩
    omega

theorem inflate_le_of_le_budget (n : Nat) (mI : Int) (hm : 1 ≤ mI)
    (hn : n ≤ fallbackBudget mI) : ((12 * n + 5) / 10 : Nat) ≤ mI.toNat := by
  unfold fallbackBudget at hn
  rw [if_neg (by omega)] at hn
  omega

/-- Chunks returned by a successful `split_text_by_tokens` call stay within
the caller's `max_tokens` budget as measured by `count_tokens`. -/
theorem splitTextByTokens_count_le (text : Str) (T M O : Int) (cs : List Str)
    (hok : splitTextByTokens text T M O = Except.ok cs) :
    ∀ c ∈ cs, countTokens c ≤ M.toNat := by
  unfold splitTextByTokens at hok
  split at hok
  · exact absurd hok (by simp)
  · split at hok
    · exact absurd hok (by simp)
    · split at hok
      · exact absurd hok (by simp)
      · rename_i hT hM hO
        dsimp only at hok
        have hcs : cs = splitTextByRegexTokensRoot text (fallbackBudget T)
            (max (fallbackBudget T) (fallbackBudget M))
            (min (max 1 (fallbackBudget O)) (fallbackBudget T - 1)) := by
          have := hok
          injection this with h2
          exact h2.symm
        subst hcs
        intro c hc
        have hbound := splitTextByRegexTokensRoot_count_le text (fallbackBudget T)
          (max (fallbackBudget T) (fallbackBudget M))
          (min (max 1 (fallbackBudget O)) (fallbackBudget T - 1))
          (le_max_left _ _) c hc
        have hTM : fallbackBudget T ≤ fallbackBudget M := fallbackBudget_mono (by omega)
        have hmax : max (fallbackBudget T) (fallbackBudget M) = fallbackBudget M := by omega
        rw [hmax] at hbound
    -- convert the regex-token bound to the inflated count
        unfold countTokens
        split
        · omega
        · exact inflate_le_of_le_budget (regexTokenCount c) M (by omega) hbound

/-! ### `pipeline.py`: chunk assembly (`_chunk_segment_texts` and helpers) -/

/-- `pipeline.py::_is_table_chunk_text`. -/
def isTableChunkText (text : Str) : Bool :=
  ("Table:".toList).isPrefixOf (pyLStrip text)

/-- Loop of `pipeline.py::_merge_tiny_chunk_texts`; `out` is the reversed
output accumulator, the head of `working` plays the role of `working[idx]`,
and the `Option` encodes the Python `merged` flag. -/
def mergeTinyLoop (minTokens maxTokens : Nat) : Nat → List Str → List Str → List Str
  | 0, out, working => out.reverse ++ working
  | fuel + 1, out, working =>
    match working with
    | [] => out.reverse
    | chunk :: rest =>
      if minTokens ≤ countTokens chunk then
        mergeTinyLoop minTokens maxTokens fuel (chunk :: out) rest
      else
        let forwardMerged : Option (List Str) :=
          match rest with
          | nxt :: rest2 =>
            if isTableChunkText chunk = isTableChunkText nxt then
              let fc := pyRStrip chunk ++ ('\n' :: '\n' :: []) ++ pyLStrip nxt
              if countTokens fc ≤ maxTokens then some (fc :: rest2) else none
            else none
          | [] => none
        match forwardMerged with
        | some rest3 => mergeTinyLoop minTokens maxTokens fuel out rest3
        | none =>
          match out with
          | prev :: out2 =>
            if isTableChunkText prev = isTableChunkText chunk then
              let bc := pyRStrip prev ++ ('\n' :: '\n' :: []) ++ pyLStrip chunk
              if countTokens bc ≤ maxTokens then
                mergeTinyLoop minTokens maxTokens fuel (bc :: out2) rest
              else mergeTinyLoop minTokens maxTokens fuel (chunk :: out) rest
            else mergeTinyLoop minTokens maxTokens fuel (chunk :: out) rest
          | [] => mergeTinyLoop minTokens maxTokens fuel (chunk :: out) rest

/-- `pipeline.py::_merge_tiny_chunk_texts`. -/
def mergeTinyChunkTexts (chunkTexts : List Str) (minTokens maxTokens : Nat) : List Str :=
  if chunkTexts.isEmpty then []
  else
    let working := (chunkTexts.filter (fun c => !(pyStrip c).isEmpty)).map pyStrip
    if working.length ≤ 1 then working
    else mergeTinyLoop minTokens maxTokens (working.length + 1) [] working

theorem mergeTinyLoop_count_le (minT maxT : Nat) :
    ∀ (fuel : Nat) (out working : List Str),
      (∀ c ∈ out, countTokens c ≤ maxT) → (∀ c ∈ working, countTokens c ≤ maxT) →
      ∀ c ∈ mergeTinyLoop minT maxT fuel out working, countTokens c ≤ maxT := by
  intro fuel
  induction fuel with
  | zero =>
    intro out working hout hw c hc
    unfold mergeTinyLoop at hc
    rcases List.mem_append.mp hc with hc | hc
    · exact hout c (List.mem_reverse.mp hc)
    · exact hw c hc
  | succ f ih =>
    intro out working hout hw c hc
    unfold mergeTinyLoop at hc
    match working, hw with
    | [], hw =>
      exact hout c (List.mem_reverse.mp hc)
    | chunk :: rest, hw =>
      have hchunk : countTokens chunk ≤ maxT := hw chunk (by simp)
      have hrest : ∀ d ∈ rest, countTokens d ≤ maxT := fun d hd => hw d (by simp [hd])
      have houtc : ∀ d ∈ chunk :: out, countTokens d ≤ maxT := by
        intro d hd
        rcases List.mem_cons.mp hd with rfl | hd
        · exact hchunk
        · exact hout d hd
      dsimp only at hc
      split at hc
      · exact ih _ _ houtc hrest c hc
      · rcases rest with _ | ⟨nxt, rest2⟩
        · -- no next chunk: forward merge impossible, fall through to the backward merge
          dsimp only at hc
          rcases out with _ | ⟨prev, out2⟩
          · exact ih _ _ houtc hrest c hc
          · replace hc : c ∈ (if isTableChunkText prev = isTableChunkText chunk then
                (if countTokens (pyRStrip prev ++ ('\n' :: '\n' :: []) ++ pyLStrip chunk) ≤ maxT
                  then mergeTinyLoop minT maxT f ((pyRStrip prev ++ ('\n' :: '\n' :: [])
                    ++ pyLStrip chunk) :: out2) []
                  else mergeTinyLoop minT maxT f (chunk :: prev :: out2) [])
                else mergeTinyLoop minT maxT f (chunk :: prev :: out2) []) := hc
            by_cases hkind2 : isTableChunkText prev = isTableChunkText chunk
            · rw [if_pos hkind2] at hc
              by_cases hfit2 : countTokens (pyRStrip prev ++ ('\n' :: '\n' :: [])
                  ++ pyLStrip chunk) ≤ maxT
              · rw [if_pos hfit2] at hc
                refine ih _ _ ?_ hrest c hc
                intro d hd
                rcases List.mem_cons.mp hd with rfl | hd
                · exact hfit2
                · exact hout d (by simp [hd])
              · rw [if_neg hfit2] at hc
                exact ih _ _ houtc hrest c hc
            · rw [if_neg hkind2] at hc
              exact ih _ _ houtc hrest c hc
        · have hnxt : countTokens nxt ≤ maxT := hrest nxt (by simp)
          have hrest2 : ∀ d ∈ rest2, countTokens d ≤ maxT := fun d hd => hrest d (by simp [hd])
          dsimp only at hc
          by_cases hkind : isTableChunkText chunk = isTableChunkText nxt
          · rw [if_pos hkind] at hc
            by_cases hfit : countTokens (pyRStrip chunk ++ ('\n' :: '\n' :: [])
                ++ pyLStrip nxt) ≤ maxT
            · rw [if_pos hfit] at hc
              dsimp only at hc
              refine ih _ _ hout ?_ c hc
              intro d hd
              rcases List.mem_cons.mp hd with rfl | hd
              · exact hfit
              · exact hrest2 d hd
            · rw [if_neg hfit] at hc
              dsimp only at hc
              rcases out with _ | ⟨prev, out2⟩
              · exact ih _ _ houtc hrest c hc
              · replace hc : c ∈ (if isTableChunkText prev = isTableChunkText chunk then
                    (if countTokens (pyRStrip prev ++ ('\n' :: '\n' :: [])
                        ++ pyLStrip chunk) ≤ maxT
                      then mergeTinyLoop minT maxT f ((pyRStrip prev ++ ('\n' :: '\n' :: [])
                        ++ pyLStrip chunk) :: out2) (nxt :: rest2)
                      else mergeTinyLoop minT maxT f (chunk :: prev :: out2) (nxt :: rest2))
                    else mergeTinyLoop minT maxT f (chunk :: prev :: out2) (nxt :: rest2)) := hc
                by_cases hkind2 : isTableChunkText prev = isTableChunkText chunk
                · rw [if_pos hkind2] at hc
                  by_cases hfit2 : countTokens (pyRStrip prev ++ ('\n' :: '\n' :: [])
                      ++ pyLStrip chunk) ≤ maxT
                  · rw [if_pos hfit2] at hc
                    refine ih _ _ ?_ hrest c hc
                    intro d hd
                    rcases List.mem_cons.mp hd with rfl | hd
                    · exact hfit2
                    · exact hout d (by simp [hd])
                  · rw [if_neg hfit2] at hc
                    exact ih _ _ houtc hrest c hc
                · rw [if_neg hkind2] at hc
                  exact ih _ _ houtc hrest c hc
          · rw [if_neg hkind] at hc
            dsimp only at hc
            rcases out with _ | ⟨prev, out2⟩
            · exact ih _ _ houtc hrest c hc
            · replace hc : c ∈ (if isTableChunkText prev = isTableChunkText chunk then
                  (if countTokens (pyRStrip prev ++ ('\n' :: '\n' :: [])
                      ++ pyLStrip chunk) ≤ maxT
                    then mergeTinyLoop minT maxT f ((pyRStrip prev ++ ('\n' :: '\n' :: [])
                      ++ pyLStrip chunk) :: out2) (nxt :: rest2)
                    else mergeTinyLoop minT maxT f (chunk :: prev :: out2) (nxt :: rest2))
                  else mergeTinyLoop minT maxT f (chunk :: prev :: out2) (nxt :: rest2)) := hc
              by_cases hkind2 : isTableChunkText prev = isTableChunkText chunk
              · rw [if_pos hkind2] at hc
                by_cases hfit2 : countTokens (pyRStrip prev ++ ('\n' :: '\n' :: [])
                    ++ pyLStrip chunk) ≤ maxT
                · rw [if_pos hfit2] at hc
                  refine ih _ _ ?_ hrest c hc
                  intro d hd
                  rcases List.mem_cons.mp hd with rfl | hd
                  · exact hfit2
                  · exact hout d (by simp [hd])
                · rw [if_neg hfit2] at hc
                  exact ih _ _ houtc hrest c hc
              · rw [if_neg hkind2] at hc
                exact ih _ _ houtc hrest c hc

/-- The tiny-chunk text merger preserves the token ceiling. -/
theorem mergeTinyChunkTexts_count_le (chunkTexts : List Str) (minT maxT : Nat)
    (h : ∀ c ∈ chunkTexts, countTokens c ≤ maxT) :
    ∀ c ∈ mergeTinyChunkTexts chunkTexts minT maxT, countTokens c ≤ maxT := by
  intro c hc
  unfold mergeTinyChunkTexts at hc
  split at hc
  · simp at hc
  · have hworking : ∀ d ∈ (chunkTexts.filter (fun x => !(pyStrip x).isEmpty)).map pyStrip,
        countTokens d ≤ maxT := by
      intro d hd
      rcases List.mem_map.mp hd with ⟨x, hx, rfl⟩
      exact le_trans (countTokens_mono (regexTokenCount_strip_le x))
        (h x (List.mem_of_mem_filter hx))
    dsimp only at hc
    split at hc
    · exact hworking c hc
    · exact mergeTinyLoop_count_le minT maxT _ [] _ (by intro d hd; simp at hd) hworking c hc

/-- `[line.strip() for line in text.splitlines() if line.strip()]`. -/
def strippedLines (text : Str) : List Str :=
  ((pySplitLines text).map pyStrip).filter (fun l => !l.isEmpty)

/-- A line "reads as prose": `len(line.split()) > 12 or line.endswith((".", ";"))`. -/
def lineIsProseLike (l : Str) : Bool :=
  12 < (pySplitWS l).length || l.getLastD ' ' = '.' || l.getLastD ' ' = ';'

/-- `maybe_strip_orphan_prefix` inside `pipeline.py::_split_table_rows`. -/
def maybeStripOrphanTablePre (chunkText : Str) : Str :=
  match strippedLines chunkText with
  | [] => []
  | first :: body =>
    if !(("Table:".toList).isPrefixOf first) then pyStrip chunkText
    else if body.any (fun l => l.contains '|') then pyStrip chunkText
    else if body.any lineIsProseLike then pyStrip (pyJoin ('\n' :: []) body)
    else pyStrip chunkText

/-- `flush_rows` inside `pipeline.py::_split_table_rows`. -/
def splitTableRowsFlush (header : Str) (currentRows : List Str) : List Str :=
  if currentRows.isEmpty then []
  else
    let ct := maybeStripOrphanTablePre (header ++ ('\n' :: []) ++ pyJoin ('\n' :: []) currentRows)
    if ct.isEmpty then [] else [ct]

/-- Row loop of `pipeline.py::_split_table_rows` (greedy packing; an
oversized single row is re-split through `split_text_by_tokens`, which can
raise, hence `Except`). -/
def splitTableRowsLoop (header : Str) (M : Int) :
    List Str → List Str → List Str → Except String (List Str)
  | [], currentRows, chunks => Except.ok (chunks ++ splitTableRowsFlush header currentRows)
  | row :: rest, currentRows, chunks =>
    if (M : Int) < (countTokens (header ++ ('\n' :: []) ++ row) : Int) then
      match splitTextByTokens row M M 1 with
      | Except.error e => Except.error e
      | Except.ok splitRows =>
        let extra := splitRows.foldl (fun acc sr =>
          let sr2 := pyStrip sr
          if sr2.isEmpty then acc
          else
            let ct := maybeStripOrphanTablePre (header ++ ('\n' :: []) ++ sr2)
            if ct.isEmpty then acc else acc ++ [ct]) []
        splitTableRowsLoop header M rest [] ((chunks ++ splitTableRowsFlush header currentRows)
          ++ extra)
    else
      let expanded := header ++ ('\n' :: []) ++ pyJoin ('\n' :: []) (currentRows ++ [row])
      if !currentRows.isEmpty && (M : Int) < (countTokens expanded : Int) then
        splitTableRowsLoop header M rest [row] (chunks ++ splitTableRowsFlush header currentRows)
      else splitTableRowsLoop header M rest (currentRows ++ [row]) chunks

/-- `pipeline.py::_split_table_rows`. -/
def splitTableRows (text : Str) (M : Int) : Except String (List Str) :=
  match strippedLines text with
  | [] => Except.ok []
  | first :: dataLines =>
    if !(("Table:".toList).isPrefixOf first) then Except.ok [pyStrip text]
    else if !(dataLines.any (fun l => l.contains '|')) then
      (let stripped := maybeStripOrphanTablePre text
       Except.ok (if stripped.isEmpty then [] else [stripped]))
    else
      match splitTableRowsLoop first M dataLines [] [] with
      | Except.error e => Except.error e
      | Except.ok chunks =>
        let kept := chunks.filter (fun c => !(pyStrip c).isEmpty)
        Except.ok (if kept.isEmpty then [pyStrip text] else kept)

/-- The line-consuming `while` of `split_table_payload` inside
`pipeline.py::_chunk_segment_texts`; returns the collected (stripped) table
lines, the pipe flag, and the unconsumed lines. -/
def tablePayloadLoop : List Str → List Str → Bool → (List Str × Bool × List Str)
  | [], acc, sp => (acc.reverse, sp, [])
  | l :: rest, acc, sp =>
    let line := pyStrip l
    if line.isEmpty then
      if acc.isEmpty then tablePayloadLoop rest acc sp
      else (acc.reverse, sp, rest.dropWhile (fun x => (pyStrip x).isEmpty))
    else if !acc.isEmpty && sp && !(line.contains '|') then (acc.reverse, sp, l :: rest)
    else tablePayloadLoop rest (line :: acc) (sp || line.contains '|')

/-- `split_table_payload` inside `pipeline.py::_chunk_segment_texts`. -/
def splitTablePayload (payload : Str) : Option Str × Str :=
  let r := tablePayloadLoop (pySplitLines payload) [] false
  let tableLines := r.1
  let sawPipe := r.2.1
  let remaining := r.2.2
  let trailing := pyStrip (pyJoin ('\n' :: []) remaining)
  if tableLines.isEmpty then (none, pyStrip payload)
  else if !sawPipe && tableLines.any lineIsProseLike then
    let prose := pyStrip (pyJoin ('\n' :: []) tableLines)
    let combined := pyStrip (pyJoin ('\n' :: '\n' :: [])
      (([prose, trailing]).filter (fun p => !p.isEmpty)))
    (none, combined)
  else (some (("Table:".toList) ++ ('\n' :: []) ++ pyJoin ('\n' :: []) tableLines), trailing)

/-- Fragment list of `pipeline.py::_chunk_segment_texts` (`false` marks a
prose fragment, `true` a table fragment). -/
def segmentFragments (normalized : Str) : List (Bool × Str) :=
  if !(pyContainsSub ("Table:\n".toList) normalized) then [(false, normalized)]
  else
    let parts := pySplitSep ("Table:\n".toList) normalized
    let headPart := pyStrip (parts.headD [])
    let tailParts := parts.drop 1
    (if headPart.isEmpty then [] else [(false, headPart)]) ++
      tailParts.foldl (fun acc payload =>
        let tp := splitTablePayload payload
        acc ++ (match tp.1 with | some tf => [(true, tf)] | none => []) ++
          (if tp.2.isEmpty then [] else [(false, tp.2)])) []

/-- The per-fragment splitting loop of `pipeline.py::_chunk_segment_texts`
(`chunk_pairs` construction). -/
def buildChunkPairs (T M O : Int) : List (Bool × Str) → List (Bool × Str) →
    Except String (List (Bool × Str))
  | [], acc => Except.ok acc
  | (kind, ftext) :: rest, acc =>
    if (pyStrip ftext).isEmpty then buildChunkPairs T M O rest acc
    else if kind then
      match splitTableRows ftext M with
      | Except.error e => Except.error e
      | Except.ok tcs =>
        buildChunkPairs T M O rest
          (acc ++ (tcs.filter (fun c => !(pyStrip c).isEmpty)).map (fun c => (true, c)))
    else
      match splitTextByTokens ftext T M O with
      | Except.error e => Except.error e
      | Except.ok cs =>
        buildChunkPairs T M O rest
          (acc ++ (cs.filter (fun c => !(pyStrip c).isEmpty)).map (fun c => (false, c)))

/-- The hard final guard of `pipeline.py::_chunk_segment_texts`: re-split any
chunk still exceeding `max_tokens` with a reduced, safe overlap. -/
def chunkGuard (T M O : Int) : List (Bool × Str) → List (Bool × Str) →
    Except String (List (Bool × Str))
  | [], acc => Except.ok acc
  | (kind, chunk) :: rest, acc =>
    if (countTokens chunk : Int) ≤ M then chunkGuard T M O rest (acc ++ [(kind, chunk)])
    else
      match splitTextByTokens chunk M M (max 1 (min O (min (T - 1) (M - 1)))) with
      | Except.error e => Except.error e
      | Except.ok scs =>
        chunkGuard T M O rest
          (acc ++ (scs.filter (fun c => !(pyStrip c).isEmpty)).map (fun c => (kind, c)))

/-- The tiny-tail merge step of `pipeline.py::_chunk_segment_texts` (runs
between pair construction and the hard guard). -/
def mergeTailPairs (M : Int) (minChars : Nat) (chunkPairs : List (Bool × Str)) :
    List (Bool × Str) :=
  let lastChunk := (chunkPairs.getLastD (false, [])).2
  if lastChunk.length < minChars ∧ (chunkPairs.getLastD (false, [])).1 = false
      ∧ (chunkPairs.dropLast.getLastD (false, [])).1 = false then
    let mergedTail := pyRStrip ((chunkPairs.dropLast.getLastD (false, [])).2)
      ++ ('\n' :: '\n' :: []) ++ pyLStrip lastChunk
    if (countTokens mergedTail : Int) ≤ M then
      chunkPairs.dropLast.dropLast ++ [(false, mergedTail)]
    else chunkPairs
  else chunkPairs

/-- `pipeline.py::_chunk_segment_texts`. -/
def chunkSegmentTexts (text : Str) (T M O : Int) (minChars : Nat) :
    Except String (List Str) :=
  let normalized := pyStrip text
  if normalized.isEmpty then Except.ok []
  else
    match buildChunkPairs T M O (segmentFragments normalized) [] with
    | Except.error e => Except.error e
    | Except.ok chunkPairs =>
      if chunkPairs.length ≤ 1 then Except.ok (chunkPairs.map (fun p => p.2))
      else
        match chunkGuard T M O (mergeTailPairs M minChars chunkPairs) [] with
        | Except.error e => Except.error e
        | Except.ok fixedPairs => Except.ok (fixedPairs.map (fun p => p.2))

theorem chunkGuard_count_le (T M O : Int) :
    ∀ (pairs acc fixed : List (Bool × Str)),
      (∀ p ∈ acc, countTokens p.2 ≤ M.toNat) →
      chunkGuard T M O pairs acc = Except.ok fixed →
      ∀ p ∈ fixed, countTokens p.2 ≤ M.toNat := by
  intro pairs
  induction pairs with
  | nil =>
    intro acc fixed hacc hok p hp
    unfold chunkGuard at hok
    have : acc = fixed := by injection hok
    subst this
    exact hacc p hp
  | cons pr rest ih =>
    intro acc fixed hacc hok p hp
    obtain ⟨kind, chunk⟩ := pr
    unfold chunkGuard at hok
    split at hok
    · rename_i hle
      refine ih _ _ ?_ hok p hp
      intro q hq
      rcases List.mem_append.mp hq with hq | hq
      · exact hacc q hq
      · have hq2 : q = (kind, chunk) := by simpa using hq
        subst hq2
        have : (countTokens chunk : Int) ≤ M := hle
        show countTokens chunk ≤ M.toNat
        omega
    · split at hok
      · exact absurd hok (by simp)
      · rename_i scs hspl
        refine ih _ _ ?_ hok p hp
        intro q hq
        rcases List.mem_append.mp hq with hq | hq
        · exact hacc q hq
        · rcases List.mem_map.mp hq with ⟨c, hcf, rfl⟩
          exact splitTextByTokens_count_le chunk M M _ scs hspl c (List.mem_of_mem_filter hcf)

/-- Claim C1 (amended): whenever `_chunk_segment_texts` emits at
least two chunks (so the `len(chunks) <= 1` early return is not taken and
the hard final guard runs), every emitted chunk — and every chunk surviving
`_merge_tiny_chunk_texts` — obeys `count_tokens(chunk) <= max_tokens`. -/
theorem C1_token_ceiling (text : Str) (T M O : Int) (minChars minTok : Nat)
    (chunks : List Str)
    (hT : 0 < T) (hTM : T ≤ M) (hO : O < T)
    (hok : chunkSegmentTexts text T M O minChars = Except.ok chunks)
    (hlen : 2 ≤ chunks.length) :
    ∀ c ∈ mergeTinyChunkTexts chunks minTok M.toNat, countTokens c ≤ M.toNat := by
  have hchunks : ∀ c ∈ chunks, countTokens c ≤ M.toNat := by
    unfold chunkSegmentTexts at hok
    dsimp only at hok
    split at hok
    · have : ([] : List Str) = chunks := by injection hok
      subst this
      simp at hlen
    · split at hok
      · exact absurd hok (by simp)
      · rename_i chunkPairs hbuild
        split at hok
        · rename_i hshort
          have hch : chunkPairs.map (fun p => p.2) = chunks := by injection hok
          subst hch
          simp at hlen
          omega
        · split at hok
          · exact absurd hok (by simp)
          · rename_i fixedPairs hguard
            have hch : fixedPairs.map (fun p => p.2) = chunks := by injection hok
            subst hch
            intro c hc
            rcases List.mem_map.mp hc with ⟨p, hpmem, rfl⟩
            exact chunkGuard_count_le T M O _ [] fixedPairs (by intro q hq; simp at hq)
              hguard p hpmem
  exact mergeTinyChunkTexts_count_le chunks minTok M.toNat hchunks

/-- Witness input: twelve one-letter words, split with budgets
`target=3, max=4, overlap=1`. -/
def c1wText : Str := ("w w w w w w w w w w w w").toList

theorem C1_token_ceiling_witness :
    ∃ chunks, chunkSegmentTexts c1wText 3 4 1 4 = Except.ok chunks ∧ 2 ≤ chunks.length ∧
      ∀ c ∈ mergeTinyChunkTexts chunks 1 (4 : Int).toNat,
        countTokens c ≤ (4 : Int).toNat := by
  refine ⟨(chunkSegmentTexts c1wText 3 4 1 4).toOption.getD [], rfl, by decide, ?_⟩
  exact C1_token_ceiling c1wText 3 4 1 4 1 _ (by decide) (by decide) (by decide) rfl (by decide)

/-- Counterexample input: a `Table:` block whose payload has no pipe
characters and does not read as prose, so `_split_table_rows` returns it
whole and the single-chunk early return bypasses the hard guard. -/
def c1CexText : Str :=
  ("Table:\na b\na b\na b\na b\na b\na b\na b\na b\na b\na b\n").toList

def c1CexOut : List Str := (chunkSegmentTexts c1CexText 10 10 2 30).toOption.getD []

/-- With the valid budgets `target=10, max=10, overlap=2`, the assembler
emits a single chunk of 26 counted tokens, which also survives
`_merge_tiny_chunk_texts`: a chunk exceeding `max_tokens = 10` reaches the
output list, refuting the unconditional token-ceiling claim. -/
theorem C1_counterexample :
    chunkSegmentTexts c1CexText 10 10 2 30 = Except.ok c1CexOut ∧
    c1CexOut.length = 1 ∧
    mergeTinyChunkTexts c1CexOut 24 10 = c1CexOut ∧
    10 < countTokens (c1CexOut.headD []) := by
  refine ⟨rfl, by decide, by decide, by decide⟩

/-! ### `use_cases/services/chunking_service.py::ChunkingService`

The live revision of the splitter.  It differs from the module-level
`chunking.py` splitter in its next-start selection, which enforces
`MAX_CONSECUTIVE_OVERLAP_CHARS = 30` on the decoded overlap region. -/

/-- Python `s[-n:]` for `n ≥ 1`. -/
def takeRight {α : Type} (s : List α) (n : Nat) : List α := s.drop (s.length - n)

def maxSuffixPrefixOverlapLoop (lt rh : Str) : Nat → Nat
  | 0 => 0
  | k + 1 =>
    if takeRight lt (k + 1) = rh.take (k + 1) then k + 1
    else maxSuffixPrefixOverlapLoop lt rh k

/-- `ChunkingService._max_suffix_prefix_overlap` with the default
`OVERLAP_SCAN_CHARS = 320` window. -/
def maxSuffixPrefixOverlap (left right : Str) : Nat :=
  let lt := takeRight left 320
  let rh := right.take 320
  maxSuffixPrefixOverlapLoop lt rh (min lt.length rh.length)

/-- `ChunkingService._looks_sentence_start`. -/
def looksSentenceStart (text : Str) : Bool :=
  let cleaned := pyLStrip text
  if cleaned.isEmpty then false
  else if ("Table:".toList).isPrefixOf cleaned || ("#".toList).isPrefixOf cleaned
      || ("- ".toList).isPrefixOf cleaned || ("* ".toList).isPrefixOf cleaned then true
  else (cleaned.headD ' ').isUpper || (cleaned.headD ' ').isDigit

/-- The cap-seeking `while` of `ChunkingService._next_start_index_regex`. -/
def nextStartWhileRegex (endChar : Nat) (ms : List (Nat × Nat)) (e : Nat) : Nat → Nat → Nat
  | 0, idx => idx
  | fuel + 1, idx =>
    if idx < e then
      if endChar - (ms.getD idx (0, 0)).1 ≤ 30 then idx
      else nextStartWhileRegex endChar ms e fuel (idx + 1)
    else idx

/-- The sentence-start probe `for` of `ChunkingService._next_start_index_regex`. -/
def nextStartProbeRegex (text : Str) (endChar : Nat) (ms : List (Nat × Nat)) (e : Nat) :
    Nat → Nat → Option Nat
  | 0, _ => none
  | fuel + 1, probe =>
    if probe < e then
      if 30 < endChar - (ms.getD probe (0, 0)).1 then
        nextStartProbeRegex text endChar ms e fuel (probe + 1)
      else if looksSentenceStart (pySlice text ((ms.getD probe (0, 0)).1)
          (min text.length ((ms.getD probe (0, 0)).1 + 64))) then some probe
      else nextStartProbeRegex text endChar ms e fuel (probe + 1)
    else none

/-- `ChunkingService._next_start_index_regex`. -/
def nextStartIndexRegex (text : Str) (ms : List (Nat × Nat)) (start e o : Nat) : Nat :=
  let minStart := max (start + 1) (e - o)
  let endChar := (ms.getD (e - 1) (0, 0)).2
  let idx := nextStartWhileRegex endChar ms e (e + 1) minStart
  match nextStartProbeRegex text endChar ms e (e + 1) idx with
  | some p => p
  | none => min idx e

/-- Loop of `ChunkingService._split_text_by_regex_tokens` (identical to the
module-level loop except for the capped next-start selection). -/
def splitRegexLoopSvc (cs : Str) (ms : List (Nat × Nat)) (tc t m o : Nat) :
    Nat → Nat → List Str → List Str
  | 0, _, out => out
  | fuel + 1, start, out =>
    if start < tc then
      let e := if tc - start ≤ m then tc else min (start + t) tc
      if e ≤ start then out
      else
        let chunkRaw := pySlice cs ((ms.getD start (0, 0)).1) ((ms.getD (e - 1) (0, 0)).2)
        let chunkText := stripFragmentLead chunkRaw out.isEmpty
        let out2 := if chunkText.isEmpty then out else out ++ [chunkText]
        if tc ≤ e then out2
        else
          let ns := nextStartIndexRegex cs ms start e o
          let ns2 := if ns ≤ start then e else ns
          splitRegexLoopSvc cs ms tc t m o fuel ns2 out2
    else out

/-- `ChunkingService._split_text_by_regex_tokens`. -/
def svcSplitTextByRegexTokens (text : Str) (t m o : Nat) : List Str :=
  let ms := reMatches text
  let tc := ms.length
  if tc = 0 then []
  else if tc ≤ m then [pyStrip text]
  else rebalanceTinyTail (splitRegexLoopSvc text ms tc t m o (tc + 1) 0 []) t m

/-- `ChunkingService.split_text_by_tokens` in the regex-fallback
configuration. -/
def svcSplitTextByTokens (text : Str) (targetTokens maxTokens overlapTokens : Int) :
    Except String (List Str) :=
  if targetTokens ≤ 0 then Except.error ("target_tokens must be > 0")
  else if maxTokens < targetTokens then Except.error ("max_tokens must be >= target_tokens")
  else if targetTokens ≤ overlapTokens then Except.error ("overlap_tokens must be < target_tokens")
  else
    let safeTarget := fallbackBudget targetTokens
    let safeMax := max safeTarget (fallbackBudget maxTokens)
    let safeOverlap := min (max 1 (fallbackBudget overlapTokens)) (safeTarget - 1)
    Except.ok (svcSplitTextByRegexTokens text safeTarget safeMax safeOverlap)

/-- The cap-seeking `while` of `ChunkingService._next_start_index_bpe`,
parametric in the external BPE decoder. -/
def nextStartWhileBpe (dec : List Nat → Str) (ids : List Nat) (e : Nat) : Nat → Nat → Nat
  | 0, idx => idx
  | fuel + 1, idx =>
    if idx < e then
      if (dec (pySlice ids idx e)).length ≤ 30 then idx
      else nextStartWhileBpe dec ids e fuel (idx + 1)
    else idx

/-- The sentence-start probe `for` of `ChunkingService._next_start_index_bpe`. -/
def nextStartProbeBpe (dec : List Nat → Str) (ids : List Nat) (e : Nat) :
    Nat → Nat → Option Nat
  | 0, _ => none
  | fuel + 1, probe =>
    if probe < e then
      if 30 < (dec (pySlice ids probe e)).length then
        nextStartProbeBpe dec ids e fuel (probe + 1)
      else if looksSentenceStart (dec (pySlice ids probe (min e (probe + 16)))) then some probe
      else nextStartProbeBpe dec ids e fuel (probe + 1)
    else none

/-- `ChunkingService._next_start_index_bpe`, parametric in the decoder of the
external BPE tokenizer. -/
def nextStartIndexBpe (dec : List Nat → Str) (tokenIds : List Nat) (start e : Nat)
    (o : Int) : Nat :=
  let minStart := (max ((start : Int) + 1) ((e : Int) - o)).toNat
  let idx := nextStartWhileBpe dec tokenIds e (e + 1) minStart
  match nextStartProbeBpe dec tokenIds e (e + 1) idx with
  | some p => p
  | none => min idx e

theorem nextStartProbeBpe_cap (dec : List Nat → Str) (ids : List Nat) (e : Nat) :
    ∀ (fuel probe p : Nat), nextStartProbeBpe dec ids e fuel probe = some p →
      (dec (pySlice ids p e)).length ≤ 30 := by
  intro fuel
  induction fuel with
  | zero => intro probe p h; exact absurd h (by simp [nextStartProbeBpe])
  | succ f ih =>
    intro probe p h
    unfold nextStartProbeBpe at h
    split at h
    · split at h
      · exact ih _ _ h
      · split at h
        · rename_i hcap hsent
          have : probe = p := by injection h
          subst this
          omega
        · exact ih _ _ h
    · exact absurd h (by simp)

theorem nextStartWhileBpe_cap (dec : List Nat → Str) (ids : List Nat) (e : Nat) :
    ∀ (fuel idx : Nat), e ≤ idx + fuel →
      e ≤ nextStartWhileBpe dec ids e fuel idx ∨
        (dec (pySlice ids (nextStartWhileBpe dec ids e fuel idx) e)).length ≤ 30 := by
  intro fuel
  induction fuel with
  | zero =>
    intro idx hfuel
    left
    simpa [nextStartWhileBpe] using hfuel
  | succ f ih =>
    intro idx hfuel
    unfold nextStartWhileBpe
    split
    · split
      · rename_i hlt hcap
        right
        exact hcap
      · exact ih (idx + 1) (by omega)
    · rename_i hlt
      left
      omega

/-- Claim C2 (amended): the next-chunk start chosen by
`ChunkingService._next_start_index_bpe` either equals the previous chunk's
end (no overlap) or decodes, together with the tokens up to that end, to at
most `MAX_CONSECUTIVE_OVERLAP_CHARS = 30` characters — for every decoder,
token-id list, window and requested `overlap_tokens`. -/
theorem C2_next_start_cap (dec : List Nat → Str) (tokenIds : List Nat) (start e : Nat)
    (o : Int) :
    nextStartIndexBpe dec tokenIds start e o = e ∨
      (dec (pySlice tokenIds (nextStartIndexBpe dec tokenIds start e o) e)).length ≤ 30 := by
  unfold nextStartIndexBpe
  dsimp only
  split
  · rename_i p hp
    right
    exact nextStartProbeBpe_cap dec tokenIds e _ _ p hp
  · rename_i hnone
    have hwhile := nextStartWhileBpe_cap dec tokenIds e (e + 1)
      ((max ((start : Int) + 1) ((e : Int) - o)).toNat) (by omega)
    by_cases hge : e ≤ nextStartWhileBpe dec tokenIds e (e + 1)
        ((max ((start : Int) + 1) ((e : Int) - o)).toNat)
    · left
      omega
    · right
      have hmin : min (nextStartWhileBpe dec tokenIds e (e + 1)
          ((max ((start : Int) + 1) ((e : Int) - o)).toNat)) e
          = nextStartWhileBpe dec tokenIds e (e + 1)
            ((max ((start : Int) + 1) ((e : Int) - o)).toNat) := by omega
      rw [hmin]
      rcases hwhile with hwhile | hwhile
      · exact absurd hwhile hge
      · exact hwhile

/-- Counterexample text for the 30-character suffix/prefix overlap claim:
`"a " * 60` (sixty one-letter words). -/
def c2Text : Str := (List.replicate 60 ('a' :: ' ' :: [])).join

def c2Chunks : List Str := (svcSplitTextByTokens c2Text 30 30 20).toOption.getD []

set_option maxRecDepth 100000 in
/-- On repetitive text, two consecutive chunks of one
`ChunkingService.split_text_by_tokens` call (valid budgets
`target=30, max=30, overlap=20`) are identical 49-character strings, so
their longest suffix/prefix overlap is 49 > 30: the 30-character cap bounds
the *intended* overlap region, not the observable suffix/prefix repetition.
(The module-level `chunking.py` splitter applies no cap at all.) -/
theorem C2_counterexample :
    c2Chunks.length = 5 ∧
    maxSuffixPrefixOverlap (c2Chunks.headD []) ((c2Chunks.drop 1).headD []) = 49 ∧
    30 < maxSuffixPrefixOverlap (c2Chunks.headD []) ((c2Chunks.drop 1).headD []) := by
  decide

/-- Claim C3 (amended), regex-fallback configuration: the split is
the identity modulo stripping as soon as the raw regex token count fits the
*scaled* maximum budget. -/
theorem C3_noop_split (text : Str) (T M O : Int)
    (hT : 0 < T) (hTM : T ≤ M) (hO : O < T)
    (h0 : 0 < regexTokenCount text)
    (hle : regexTokenCount text ≤ max (fallbackBudget T) (fallbackBudget M)) :
    splitTextByTokens text T M O = Except.ok [pyStrip text] := by
  unfold regexTokenCount at h0 hle
  unfold splitTextByTokens
  rw [if_neg (by omega), if_neg (by omega), if_neg (by omega)]
  dsimp only
  unfold splitTextByRegexTokensRoot
  dsimp only
  rw [if_neg (by omega), if_pos hle]

theorem C3_noop_split_witness :
    splitTextByTokens (("a b c").toList) 10 10 2
      = Except.ok [pyStrip (("a b c").toList)] :=
  C3_noop_split (("a b c").toList) 10 10 2 (by decide) (by decide) (by decide)
    (by decide) (by decide)

def c3Text : Str := ("a b").toList

/-- `count_tokens("a b") = 2 ≤ max_tokens = 2`, yet the fallback split
returns two chunks (`["a", "b"]`), not `[text.strip()]`: the inflated
`count_tokens` is compared against the un-scaled budget while the splitter
uses the scaled budget `max(1, int(2 / 1.2)) = 1`. -/
theorem C3_counterexample :
    countTokens c3Text ≤ (2 : Int).toNat ∧
    splitTextByTokens c3Text 2 2 1 = Except.ok [('a' :: []), ('b' :: [])] ∧
    [('a' :: []), ('b' :: [])] ≠ [pyStrip c3Text] := by
  refine ⟨by decide, by rfl, by decide⟩

/-- Claim C4: `split_text_by_tokens` raises `ValueError` exactly on the invalid budget
configurations (`target <= 0`, `max < target`, `overlap >= target`) and never
on valid ones; validation happens before any splitting work. -/
theorem C4_validation (text : Str) (T M O : Int) :
    (splitTextByTokens text T M O).isOk = true ↔ (0 < T ∧ T ≤ M ∧ O < T) := by
  unfold splitTextByTokens
  split
  · rename_i h
    simp only [Except.isOk, Except.toBool]
    constructor
    · intro hfalse
      exact absurd hfalse (by simp)
    · intro hcond
      omega
  · split
    · rename_i h1 h2
      simp only [Except.isOk, Except.toBool]
      constructor
      · intro hfalse
        exact absurd hfalse (by simp)
      · intro hcond
        omega
    · split
      · rename_i h1 h2 h3
        simp only [Except.isOk, Except.toBool]
        constructor
        · intro hfalse
          exact absurd hfalse (by simp)
        · intro hcond
          omega
      · rename_i h1 h2 h3
        simp only [Except.isOk, Except.toBool]
        constructor
        · intro htrue
          exact ⟨by omega, by omega, by omega⟩
        · intro hcond
          trivial

/-! ## Domain models (`domain/models.py`) and the segment mergers -/

/-- `domain.models.PageRef` (frozen dataclass). -/
structure PageRef where
  page_idx : Nat
  block_id : Option Str
  block_position : Option Str
  deriving DecidableEq

/-- `domain.models.CanonicalBlock` (only the fields the embedded functions
read). -/
structure CanonicalBlock where
  text : Str
  block_type : Str
  page_refs : List PageRef
  heading_level : Option Nat
  deriving DecidableEq

/-- `domain.models.Segment`; Python's `section` field is spelt
`sectionLabel` because `section` is reserved in Lean. -/
structure Segment where
  text : Str
  page_refs : List PageRef
  sectionLabel : Option Str
  article : Option Str
  subarticle : Option Str
  heading_path : List Str
  deriving DecidableEq

/-- Python truthiness of an `str | None` field: truthy iff present and
non-empty. -/
def pyTruthyOpt : Option Str → Bool
  | none => false
  | some s => !s.isEmpty

/-- `_dedupe_page_refs` keyed on `(page_idx, block_id, block_position)`,
keeping first occurrences. -/
def dedupePageRefsAux : List PageRef → List (Nat × Option Str × Option Str) → List PageRef
  | [], _ => []
  | r :: rest, seen =>
    if (r.page_idx, r.block_id, r.block_position) ∈ seen then dedupePageRefsAux rest seen
    else r :: dedupePageRefsAux rest ((r.page_idx, r.block_id, r.block_position) :: seen)

def dedupePageRefs (refs : List PageRef) : List PageRef := dedupePageRefsAux refs []

/-- `_same_structure` (identical in `pipeline.py` and
`segment_merge_service.py`). -/
def sameStructure (a b : Segment) : Bool :=
  decide (a.sectionLabel = b.sectionLabel) && decide (a.article = b.article)
    && decide (a.subarticle = b.subarticle)

/-- `pipeline.py::_compatible_for_small_merge` (lines 295-302): the
three-rule predicate. -/
def compatForSmallMerge (a b : Segment) : Bool :=
  if sameStructure a b then true
  else if pyTruthyOpt a.article && pyTruthyOpt b.article
      && decide (a.article = b.article) then true
  else if pyTruthyOpt a.sectionLabel && pyTruthyOpt b.sectionLabel
      && decide (a.sectionLabel = b.sectionLabel)
      && !pyTruthyOpt a.article && !pyTruthyOpt b.article then true
  else false

/-- `segment_merge_service.py::_compatible_for_small_merge` (lines 77-92):
the same three rules followed by the heading-path branches, each of which
returns `False`. -/
def compatForSmallMergeSvc (a b : Segment) : Bool :=
  if sameStructure a b then true
  else if pyTruthyOpt a.article && pyTruthyOpt b.article
      && decide (a.article = b.article) then true
  else if pyTruthyOpt a.sectionLabel && pyTruthyOpt b.sectionLabel
      && decide (a.sectionLabel = b.sectionLabel)
      && !pyTruthyOpt a.article && !pyTruthyOpt b.article then true
  else if decide (2 ≤ a.heading_path.length) && decide (2 ≤ b.heading_path.length)
      && !decide (a.heading_path.getD 1 [] = b.heading_path.getD 1 []) then false
  else if !decide (a.article = b.article) then false
  else if a.article.isNone && b.article.isNone
      && !a.heading_path.isEmpty && !b.heading_path.isEmpty
      && !decide (a.heading_path.getD 0 [] = b.heading_path.getD 0 []) then false
  else false

/-- `pipeline.py::_merge_two_segments` (identical in the service module):
forward merge keeping `a`'s structural labels. -/
def mergeTwoSegments (a b : Segment) : Segment :=
  { text := pyRStrip a.text ++ ('\n' :: '\n' :: []) ++ pyLStrip b.text
    page_refs := dedupePageRefs (a.page_refs ++ b.page_refs)
    sectionLabel := a.sectionLabel
    article := a.article
    subarticle := a.subarticle
    heading_path := if a.heading_path.isEmpty then b.heading_path else a.heading_path }

/-- `pipeline.py::_prepend_segment_to_next` (identical in the service
module): label-prepend merge adopting the next segment's structural labels. -/
def prependSegmentToNext (pre nxt : Segment) : Segment :=
  { text := pyRStrip pre.text ++ ('\n' :: '\n' :: []) ++ pyLStrip nxt.text
    page_refs := dedupePageRefs (pre.page_refs ++ nxt.page_refs)
    sectionLabel := nxt.sectionLabel
    article := nxt.article
    subarticle := nxt.subarticle
    heading_path := if nxt.heading_path.isEmpty then pre.heading_path else nxt.heading_path }

/-- Claim C8: a forward merge keeps `a`'s section, article and subarticle unchanged;
a label-prepend merge takes the *next* segment's; in both merges the page
refs are the deduplicated union and the text is the blank-line join of the
rstripped left text and lstripped right text — nothing else of either input
leaks into the structural fields. -/
theorem C8_merge_frame (a b : Segment) :
    (mergeTwoSegments a b).sectionLabel = a.sectionLabel ∧
    (mergeTwoSegments a b).article = a.article ∧
    (mergeTwoSegments a b).subarticle = a.subarticle ∧
    (prependSegmentToNext a b).sectionLabel = b.sectionLabel ∧
    (prependSegmentToNext a b).article = b.article ∧
    (prependSegmentToNext a b).subarticle = b.subarticle ∧
    (mergeTwoSegments a b).page_refs = dedupePageRefs (a.page_refs ++ b.page_refs) ∧
    (prependSegmentToNext a b).page_refs = dedupePageRefs (a.page_refs ++ b.page_refs) ∧
    (mergeTwoSegments a b).text = pyRStrip a.text ++ ('\n' :: '\n' :: []) ++ pyLStrip b.text ∧
    (prependSegmentToNext a b).text = pyRStrip a.text ++ ('\n' :: '\n' :: []) ++ pyLStrip b.text :=
  ⟨rfl, rfl, rfl, rfl, rfl, rfl, rfl, rfl, rfl, rfl⟩

/-- Field discipline the pipeline maintains: optional structural labels are
either absent or non-empty strings (they originate from non-empty regex
captures or literal non-empty strings), so Python truthiness coincides with
being non-null. -/
def noEmptyFields (a : Segment) : Prop :=
  a.sectionLabel ≠ some [] ∧ a.article ≠ some []

instance (a : Segment) : Decidable (noEmptyFields a) := by
  unfold noEmptyFields
  infer_instance

/-- Claim C10: the service-module compatibility predicate is extensionally equal to
the three-rule pipeline predicate (every heading-path branch after the
three rules returns `False`), and on segments whose optional labels are
never the empty string the common predicate holds iff the segments share
the whole `(section, article, subarticle)` triple, or the same non-null
article, or the same non-null section with both articles null. -/
theorem C10_compat_equiv :
    (∀ a b : Segment, compatForSmallMergeSvc a b = compatForSmallMerge a b) ∧
    (∀ a b : Segment, noEmptyFields a → noEmptyFields b →
      (compatForSmallMerge a b = true ↔
        ((a.sectionLabel = b.sectionLabel ∧ a.article = b.article ∧
            a.subarticle = b.subarticle) ∨
         (a.article.isSome ∧ b.article.isSome ∧ a.article = b.article) ∨
         (a.sectionLabel.isSome ∧ b.sectionLabel.isSome ∧
            a.sectionLabel = b.sectionLabel ∧
            a.article = none ∧ b.article = none)))) := by
  constructor
  · intro a b
    unfold compatForSmallMergeSvc compatForSmallMerge
    split
    · rfl
    · split
      · rfl
      · split
        · rfl
        · split
          · rfl
          · split
            · rfl
            · split
              · rfl
              · rfl
  · intro a b ha hb
    obtain ⟨ha1, ha2⟩ := ha
    obtain ⟨hb1, hb2⟩ := hb
    unfold compatForSmallMerge sameStructure pyTruthyOpt
    cases hsa : a.sectionLabel <;> cases hsb : b.sectionLabel <;>
      cases haa : a.article <;> cases hab : b.article <;>
        simp_all <;>
          constructor <;> intro h <;>
            rcases h with h | h | h <;> simp_all

theorem C10_compat_equiv_witness :
    compatForSmallMerge
        ⟨[], [], some ('S' :: []), none, none, []⟩
        ⟨('x' :: []), [], some ('S' :: []), none, some ('1' :: []), []⟩ = true ↔
      ((some ('S' :: []) = some ('S' :: []) ∧ (none : Option Str) = none ∧
          (none : Option Str) = some ('1' :: [])) ∨
       ((none : Option Str).isSome ∧ (none : Option Str).isSome ∧
          (none : Option Str) = none) ∨
       ((some ('S' :: []) : Option Str).isSome ∧
          (some ('S' :: []) : Option Str).isSome ∧
          (some ('S' :: []) : Option Str) = some ('S' :: []) ∧
          (none : Option Str) = none ∧ (none : Option Str) = none)) :=
  C10_compat_equiv.2
    ⟨[], [], some ('S' :: []), none, none, []⟩
    ⟨('x' :: []), [], some ('S' :: []), none, some ('1' :: []), []⟩
    (by decide) (by decide)

/-! ## `TinyChunkSweepService.sweep` (tiny_chunk_sweep_service.py)

The service receives its policy logic (token counting, structural-stub
detection, structure compatibility, page-ref merging, augmented-text
building, sha1 and table detection) as injected callbacks, so those are
modelled parametrically in a `SweepCallbacks` record. -/

/-- One element of a chunk row's `page_refs` payload list. -/
structure PageRefPayload where
  page_idx : Nat
  block_id : Option Str
  block_position : Option Str

/-- The `metadata` sub-dict of a chunk row (the fields the sweep reads). -/
structure RowMeta where
  name : Option Str
  year : Option Str
  brief_description : Option Str
  sectionLabel : Option Str
  article : Option Str
  subarticle : Option Str

/-- A chunk row dict (the keys the sweep reads or writes); `token_count`
is optional because the service defaults it via
`row.get("token_count", count_tokens(text))`. -/
structure ChunkRow where
  doc_id : Str
  chunk_index : Nat
  chunk_id : Str
  text : Str
  token_count : Option Nat
  metadata : RowMeta
  page_refs : List PageRefPayload
  char_count : Nat
  augmented_text : Str
  page_start : Option Nat
  page_end : Option Nat

/-- The callbacks injected into `TinyChunkSweepService.__init__`. -/
structure SweepCallbacks where
  countTokensCb : Str → Nat
  looksStub : Str → Nat → Bool
  compatible : ChunkRow → Option Str → Option Str → Option Str → Bool
  mergeRefs : List PageRefPayload → List PageRefPayload → List PageRefPayload
  buildAug : Str → Option Str → Option Str → Option Str → Option Str → Option Str →
    Option Str → Str
  sha1Fn : Str → Str
  isTableText : Str → Bool

/-- `TinyChunkSweepService._is_compatible_neighbor`. -/
def isCompatNeighbor (cb : SweepCallbacks) (nb : ChunkRow)
    (sec art sub : Option Str) (isTable : Bool) : Bool :=
  cb.compatible nb sec art sub && (cb.isTableText nb.text == isTable)

/-- `TinyChunkSweepService._refresh_chunk_row_text`. -/
def refreshChunkRowText (cb : SweepCallbacks) (r : ChunkRow) (t : Str) : ChunkRow :=
  { r with text := t
           token_count := some (cb.countTokensCb t)
           char_count := t.length
           augmented_text := cb.buildAug t r.metadata.name r.metadata.year
             r.metadata.brief_description r.metadata.sectionLabel r.metadata.article
             r.metadata.subarticle }

/-- `TinyChunkSweepService._set_chunk_row_page_meta`. -/
def setChunkRowPageMeta (r : ChunkRow) (refs : List PageRefPayload) : ChunkRow :=
  { r with page_refs := refs
           page_start := (refs.map (fun p => p.page_idx)).min?
           page_end := (refs.map (fun p => p.page_idx)).max? }

/-- The `while idx < len(working)` body of `sweep`, fuel-indexed; the
measure `len(working) - idx` strictly decreases each iteration (every
branch either increments `idx` or deletes a row), so fuel
`len(working) + 1` is adequate. -/
def sweepLoop (cb : SweepCallbacks) (maxT sweepT : Nat) :
    Nat → List ChunkRow → Nat → List ChunkRow
  | 0, working, _ => working
  | fuel + 1, working, idx =>
    if h : idx < working.length then
      let row := working.get ⟨idx, h⟩
      let text := pyStrip row.text
      let tokenCount := row.token_count.getD (cb.countTokensCb text)
      if sweepT ≤ tokenCount then sweepLoop cb maxT sweepT fuel working (idx + 1)
      else if cb.looksStub text tokenCount then
        sweepLoop cb maxT sweepT fuel (working.eraseIdx idx) idx
      else
        let sec := row.metadata.sectionLabel
        let art := row.metadata.article
        let sub := row.metadata.subarticle
        let isTable := cb.isTableText text
        let backward :=
          if 0 < idx then
            let prev := working.getD (idx - 1) row
            if isCompatNeighbor cb prev sec art sub isTable then
              let mergedText := pyRStrip prev.text ++ ('\n' :: '\n' :: []) ++ text
              if cb.countTokensCb mergedText ≤ maxT then
                some ((working.set (idx - 1)
                  (setChunkRowPageMeta (refreshChunkRowText cb prev mergedText)
                    (cb.mergeRefs prev.page_refs row.page_refs))).eraseIdx idx)
              else none
            else none
          else none
        match backward with
        | some working2 => sweepLoop cb maxT sweepT fuel working2 idx
        | none =>
          let forward :=
            if idx + 1 < working.length then
              let nxt := working.getD (idx + 1) row
              if isCompatNeighbor cb nxt sec art sub isTable then
                let mergedText := text ++ ('\n' :: '\n' :: []) ++ pyLStrip nxt.text
                if cb.countTokensCb mergedText ≤ maxT then
                  some ((working.set (idx + 1)
                    (setChunkRowPageMeta (refreshChunkRowText cb nxt mergedText)
                      (cb.mergeRefs row.page_refs nxt.page_refs))).eraseIdx idx)
                else none
              else none
            else none
          match forward with
          | some working2 => sweepLoop cb maxT sweepT fuel working2 idx
          | none => sweepLoop cb maxT sweepT fuel working (idx + 1)
    else working

/-- The argument of the renumbering sha1:
`f"{row.get('doc_id')}:{new_idx}:{str(row.get('text', ''))[:80]}"`. -/
def rowIdInput (doc : Str) (i : Nat) (text : Str) : Str :=
  doc ++ ':' :: (natToChars i ++ ':' :: text.take 80)

/-- The final renumbering loop of `sweep`: position `i` gets
`chunk_index = i` and `chunk_id = sha1(doc_id:i:text[:80])[:20]`. -/
def renumberAux (s1 : Str → Str) : List ChunkRow → Nat → List ChunkRow
  | [], _ => []
  | r :: rest, i =>
    { r with chunk_index := i
             chunk_id := (s1 (rowIdInput r.doc_id i r.text)).take 20 }
      :: renumberAux s1 rest (i + 1)

/-- `TinyChunkSweepService.sweep`: early returns for lists of at most one
(raw, then blank-filtered) row, then the merge/drop loop, then the
renumbering pass. -/
def sweep (cb : SweepCallbacks) (maxT sweepT : Nat) (chunk_rows : List ChunkRow) :
    List ChunkRow :=
  if chunk_rows.length ≤ 1 then chunk_rows
  else
    let working := chunk_rows.filter (fun r => !(pyStrip r.text).isEmpty)
    if working.length ≤ 1 then working
    else renumberAux cb.sha1Fn (sweepLoop cb maxT sweepT (working.length + 1) working 0) 0

/-- Default row used by positional `getD` access in the statements. -/
def rowDefault : ChunkRow :=
  { doc_id := [], chunk_index := 0, chunk_id := [], text := [], token_count := none
    metadata := { name := none, year := none, brief_description := none,
                  sectionLabel := none, article := none, subarticle := none }
    page_refs := [], char_count := 0, augmented_text := [], page_start := none
    page_end := none }

theorem renumberAux_length (s1 : Str → Str) :
    ∀ (rows : List ChunkRow) (k : Nat), (renumberAux s1 rows k).length = rows.length
  | [], _ => rfl
  | _ :: rest, k => by
    simp [renumberAux, renumberAux_length s1 rest (k + 1)]

theorem renumberAux_getD (s1 : Str → Str) :
    ∀ (rows : List ChunkRow) (k i : Nat), i < rows.length →
      ((renumberAux s1 rows k).getD i rowDefault).chunk_index = k + i ∧
      ((renumberAux s1 rows k).getD i rowDefault).chunk_id =
        (s1 (rowIdInput ((renumberAux s1 rows k).getD i rowDefault).doc_id (k + i)
          ((renumberAux s1 rows k).getD i rowDefault).text)).take 20
  | [], _, i, h => absurd h (by simp)
  | r :: rest, k, 0, _ => by
    simp [renumberAux]
  | r :: rest, k, i + 1, h => by
    have ih := renumberAux_getD s1 rest (k + 1) i (by simpa using h)
    have harith : k + 1 + i = k + (i + 1) := by omega
    rw [harith] at ih
    simpa [renumberAux] using ih

theorem sweep_eq_renumber (cb : SweepCallbacks) (maxT sweepT : Nat)
    (rows : List ChunkRow)
    (h2 : 2 ≤ (rows.filter (fun r => !(pyStrip r.text).isEmpty)).length) :
    sweep cb maxT sweepT rows
      = renumberAux cb.sha1Fn
          (sweepLoop cb maxT sweepT
            ((rows.filter (fun r => !(pyStrip r.text).isEmpty)).length + 1)
            (rows.filter (fun r => !(pyStrip r.text).isEmpty)) 0) 0 := by
  have hflen := List.length_filter_le (fun r => !(pyStrip r.text).isEmpty) rows
  unfold sweep
  rw [if_neg (by omega)]
  dsimp only
  rw [if_neg (by omega)]

/-- Claim C9 (amended): whenever the blank-filtered row list
has at least two rows (so neither early return fires), every position `i`
of the swept list carries `chunk_index = i` and
`chunk_id = sha1(doc_id:i:text[:80])[:20]` for the row's own doc id and
text — for every injected callback set. With at most one surviving row the
early returns (`len(chunk_rows) <= 1`, then `len(working) <= 1`) skip the
renumbering pass entirely, so stale indices and ids pass through. -/
theorem C9_renumbering (cb : SweepCallbacks) (maxT sweepT : Nat)
    (rows : List ChunkRow)
    (h2 : 2 ≤ (rows.filter (fun r => !(pyStrip r.text).isEmpty)).length)
    (i : Nat) (hi : i < (sweep cb maxT sweepT rows).length) :
    ((sweep cb maxT sweepT rows).getD i rowDefault).chunk_index = i ∧
    ((sweep cb maxT sweepT rows).getD i rowDefault).chunk_id =
      (cb.sha1Fn (rowIdInput ((sweep cb maxT sweepT rows).getD i rowDefault).doc_id i
        ((sweep cb maxT sweepT rows).getD i rowDefault).text)).take 20 := by
  rw [sweep_eq_renumber cb maxT sweepT rows h2] at hi ⊢
  rw [renumberAux_length] at hi
  have := renumberAux_getD cb.sha1Fn
    (sweepLoop cb maxT sweepT
      ((rows.filter (fun r => !(pyStrip r.text).isEmpty)).length + 1)
      (rows.filter (fun r => !(pyStrip r.text).isEmpty)) 0) 0 i hi
  simpa using this

/-- Callback set used for the concrete sweep runs: identity sha1, length
token counter, never-stub, never-compatible, never-table. -/
def cbEx : SweepCallbacks :=
  { countTokensCb := fun s => s.length
    looksStub := fun _ _ => false
    compatible := fun _ _ _ _ => false
    mergeRefs := fun a b => a ++ b
    buildAug := fun t _ _ _ _ _ _ => t
    sha1Fn := fun s => s
    isTableText := fun _ => false }

def c9WRows : List ChunkRow :=
  [{ rowDefault with doc_id := ('d' :: []), chunk_index := 7, text := ('a' :: []) },
   { rowDefault with doc_id := ('d' :: []), chunk_index := 7, text := ('b' :: []) }]

theorem C9_renumbering_witness :
    ((sweep cbEx 10 0 c9WRows).getD 1 rowDefault).chunk_index = 1 ∧
    ((sweep cbEx 10 0 c9WRows).getD 1 rowDefault).chunk_id =
      (cbEx.sha1Fn (rowIdInput ((sweep cbEx 10 0 c9WRows).getD 1 rowDefault).doc_id 1
        ((sweep cbEx 10 0 c9WRows).getD 1 rowDefault).text)).take 20 :=
  C9_renumbering cbEx 10 0 c9WRows (by decide) 1 (by decide)

def c9CexRow0 : ChunkRow :=
  { rowDefault with doc_id := ('d' :: []), chunk_index := 3, chunk_id := ('z' :: []), text := ('x' :: []) }

def c9CexRows : List ChunkRow :=
  [c9CexRow0,
   { rowDefault with doc_id := ('d' :: []), chunk_index := 9, text := (' ' :: []) }]

/-- Two input rows, the second blank: the blank filter leaves one row, the
`len(working) <= 1` early return fires and the renumbering pass never
runs, so position 0 of the output keeps chunk_index 3 (not 0) and its
stale chunk_id "z" — refuting the claim's "for every input list" scope. -/
theorem C9_counterexample :
    (sweep cbEx 10 0 c9CexRows).length = 1 ∧
    ((sweep cbEx 10 0 c9CexRows).getD 0 rowDefault).chunk_index = 3 ∧
    ((sweep cbEx 10 0 c9CexRows).getD 0 rowDefault).chunk_id = ('z' :: []) := by
  refine ⟨by decide, by decide, by decide⟩

/-! ## TOC detection and consolidation (`pipeline.py` lines 588-670)

The four regexes involved:
`TOC_KEYWORD_RE = (?i)\b(summary|sommario|indice|table of contents)\b`,
`TOC_ENTRY_RE = (?i)^(?:#\s*)?(?:art\.?|article|articolo)\s*\d+(?:\.\d+)?\b.*\b\d{1,3}\s*$`,
`TOC_NUMBERED_ENTRY_RE = (?i)^\s*(?:\d+(?:\.\d+){0,4})(?:\.?\s+|[.:])\S.*\s+\d{1,3}\s*$`,
`PAGE_TAIL_RE = \b\d{1,3}\s*$`.
They are embedded with their backtracking semantics resolved: a trailing
`\b\d{1,3}\s*$` can only bind the line's maximal trailing digit run (a
shorter suffix of the run has a digit on its left, killing the `\b`), and
the optional `(?:\.\d+)?` group never enables a match that skipping it
would not (skipping leaves `\b` facing the non-word `.`). -/

/-- Caseless literal prefix match: the remainder on success. -/
def matchLitCI (lit : Str) (s : Str) : Option Str :=
  if (s.take lit.length).map Char.toLower = lit then some (s.drop lit.length) else none

/-- Length of the trailing run of decimal digits. -/
def trailingDigitRunLen (t : Str) : Nat := (t.reverse.takeWhile Char.isDigit).length

/-- `PAGE_TAIL_RE.search`: after trailing whitespace the string ends with a
run of one to three digits whose predecessor (if any) is a non-word
character. -/
def pageTailHit (s : Str) : Bool :=
  let t := pyRStrip s
  let r := trailingDigitRunLen t
  decide (1 ≤ r) && decide (r ≤ 3) &&
    (match t.reverse.drop r with
     | [] => true
     | c :: _ => !isWordChar c)

/-- The `.*\b\d{1,3}\s*$` tail of `TOC_ENTRY_RE`, checked for the whole
line `s` with the tail required to lie inside the suffix `rest`. -/
def tailWithin (s rest : Str) : Bool :=
  pageTailHit s &&
    decide (trailingDigitRunLen (pyRStrip s) + (s.length - (pyRStrip s).length)
      ≤ rest.length)

/-- The `\s+\d{1,3}\s*$` tail of `TOC_NUMBERED_ENTRY_RE` on the whole
line: trailing digit run of length one to three immediately preceded by
whitespace. -/
def numTailHit (s : Str) : Bool :=
  let t := pyRStrip s
  let r := trailingDigitRunLen t
  decide (1 ≤ r) && decide (r ≤ 3) &&
    (match t.reverse.drop r with
     | [] => false
     | c :: _ => pyIsSpace c)

/-- `.*\s+\d{1,3}\s*$` with the tail (one mandatory whitespace, digit run,
trailing whitespace) inside the suffix `rest`. -/
def numTailWithin (s rest : Str) : Bool :=
  numTailHit s &&
    decide (1 + trailingDigitRunLen (pyRStrip s) + (s.length - (pyRStrip s).length)
      ≤ rest.length)

/-- Remainders of the alternation `(?:art\.?|article|articolo)` (caseless). -/
def matchArtKw (s : Str) : List Str :=
  (match matchLitCI (("art.").toList) s with | some r => [r] | none => []) ++
  (match matchLitCI (("art").toList) s with | some r => [r] | none => []) ++
  (match matchLitCI (("article").toList) s with | some r => [r] | none => []) ++
  (match matchLitCI (("articolo").toList) s with | some r => [r] | none => [])

/-- Continuation `\s*\d+(?:\.\d+)?\b.*\b\d{1,3}\s*$` of `TOC_ENTRY_RE`
after the keyword, on remainder `rest` of line `s`. -/
def tocEntryCont (s rest : Str) : Bool :=
  let r1 := rest.dropWhile pyIsSpace
  let ds := r1.takeWhile Char.isDigit
  let r2 := r1.drop ds.length
  !ds.isEmpty &&
    (match r2 with
     | [] => false
     | c :: _ => !isWordChar c) &&
    tailWithin s r2

/-- `TOC_ENTRY_RE.match`. -/
def tocEntryMatch (s : Str) : Bool :=
  let s1 := match s with
            | '#' :: rest => rest.dropWhile pyIsSpace
            | _ => s
  (matchArtKw s1).any (fun rest => tocEntryCont s rest)

/-- Remainders of `(?:\.\d+){0,j}` (each repetition consumes a dot and a
full digit run; zero repetitions included). -/
def dotDigitReps : Nat → Str → List Str
  | 0, s => [s]
  | j + 1, s =>
    match s with
    | '.' :: rest =>
      let ds := rest.takeWhile Char.isDigit
      if ds.isEmpty then [('.' :: rest)]
      else ('.' :: rest) :: dotDigitReps j (rest.drop ds.length)
    | _ => [s]

/-- Remainders of the separator `(?:\.?\s+|[.:])`. -/
def numSepRemainders (s : Str) : List Str :=
  (match s with
   | '.' :: rest =>
     let r := rest.dropWhile pyIsSpace
     if r.length < rest.length then [r] else []
   | _ => []) ++
  (let r := s.dropWhile pyIsSpace
   if r.length < s.length then [r] else []) ++
  (match s with
   | '.' :: rest => [rest]
   | ':' :: rest => [rest]
   | _ => [])

/-- `TOC_NUMBERED_ENTRY_RE.match`. -/
def tocNumberedEntryMatch (s : Str) : Bool :=
  let s0 := s.dropWhile pyIsSpace
  let ds := s0.takeWhile Char.isDigit
  if ds.isEmpty then false
  else
    (dotDigitReps 4 (s0.drop ds.length)).any (fun r1 =>
      (numSepRemainders r1).any (fun r2 =>
        match r2 with
        | [] => false
        | c :: r3 => !pyIsSpace c && numTailWithin s r3))

/-- One keyword of `TOC_KEYWORD_RE` matches here, with its trailing word
boundary. -/
def kwBoundaryAt (kw : Str) (s : Str) : Bool :=
  decide ((s.take kw.length).map Char.toLower = kw) &&
    (match s.drop kw.length with
     | [] => true
     | c :: _ => !isWordChar c)

def tocKeywordHitAt (s : Str) : Bool :=
  kwBoundaryAt (("summary").toList) s || kwBoundaryAt (("sommario").toList) s ||
  kwBoundaryAt (("indice").toList) s || kwBoundaryAt (("table of contents").toList) s

def tocKeywordSearchAux : Str → Bool → Bool
  | [], _ => false
  | c :: rest, prevWord =>
    (!prevWord && tocKeywordHitAt (c :: rest)) || tocKeywordSearchAux rest (isWordChar c)

/-- `TOC_KEYWORD_RE.search` (the keyword's leading `\b` holds when the
previous character is absent or a non-word character). -/
def tocKeywordSearch (s : Str) : Bool := tocKeywordSearchAux s false

/-- `pipeline.py::_is_toc_segment`. -/
def isTocSegment (seg : Segment) : Bool :=
  let headingBlob := pyStrip (pyJoin (' ' :: []) seg.heading_path)
  let text := pyStrip seg.text
  if text.isEmpty then false
  else if tocKeywordSearch headingBlob || tocKeywordSearch (text.take 240) then true
  else
    let lines := strippedLines text
    if lines.length < 3 then false
    else
      let te := (lines.filter tocEntryMatch).length
      let ne := (lines.filter tocNumberedEntryMatch).length
      let pt := (lines.filter pageTailHit).length
      decide (3 ≤ te) || decide (3 ≤ ne) ||
        (decide (2 ≤ te) && decide (3 ≤ pt)) ||
        (decide (2 ≤ ne) && decide (3 ≤ pt))

/-- `pipeline.py::_is_toc_continuation`. -/
def isTocContinuation (seg : Segment) : Bool :=
  let text := pyStrip seg.text
  if text.isEmpty then false
  else if !seg.heading_path.isEmpty then false
  else
    let lines := strippedLines text
    if lines.length < 2 then false
    else
      let te := (lines.filter tocEntryMatch).length
      let ne := (lines.filter tocNumberedEntryMatch).length
      let pt := (lines.filter pageTailHit).length
      decide (2 ≤ te) || decide (2 ≤ ne) || decide (2 ≤ pt)

/-- The stripped non-empty texts of the buffered segments
(`text_parts` in `flush_buffer`). -/
def tocParts (buffer : List Segment) : List Str :=
  ((buffer.map (fun seg => pyStrip seg.text)).filter (fun t => !t.isEmpty))

/-- `flush_buffer` of `pipeline.py::_merge_toc_segments`: emits nothing
for an empty (or all-blank) buffer, otherwise one consolidated segment,
truncated to the first 20 `text_parts` when the combined text is over
budget. -/
def flushTocBuffer (maxT : Nat) (buffer : List Segment) : List Segment :=
  if buffer.isEmpty then []
  else
    let parts := tocParts buffer
    if parts.isEmpty then []
    else
      let combined := pyJoin ('\n' :: '\n' :: []) parts
      let refs := dedupePageRefs ((buffer.map (fun seg => seg.page_refs)).flatten)
      if maxT < countTokens combined then
        [{ text := ("TABLE OF CONTENTS\n\n").toList
             ++ pyStrip (pyJoin ('\n' :: []) (parts.take 20))
           page_refs := refs
           sectionLabel := some (("TABLE OF CONTENTS").toList)
           article := none
           subarticle := none
           heading_path := [("TABLE OF CONTENTS").toList] }]
      else
        [{ text := combined
           page_refs := refs
           sectionLabel := some (("TABLE OF CONTENTS").toList)
           article := none
           subarticle := none
           heading_path := [("TABLE OF CONTENTS").toList] }]

/-- The accumulation loop of `_merge_toc_segments`. -/
def mergeTocLoop (maxT : Nat) : List Segment → List Segment → List Segment
  | [], buffer => flushTocBuffer maxT buffer
  | seg :: rest, buffer =>
    if isTocSegment seg || (!buffer.isEmpty && isTocContinuation seg) then
      mergeTocLoop maxT rest (buffer ++ [seg])
    else
      flushTocBuffer maxT buffer ++ seg :: mergeTocLoop maxT rest []

/-- `pipeline.py::_merge_toc_segments` (consolidate mode; the service
version with `drop_toc=False` runs the identical logic). -/
def mergeTocSegments (maxT : Nat) (segments : List Segment) : List Segment :=
  if segments.isEmpty then [] else mergeTocLoop maxT segments []

/-- Default segment for positional access in statements. -/
def segDefault : Segment :=
  { text := [], page_refs := [], sectionLabel := none, article := none
    subarticle := none, heading_path := [] }

/-- What the claim's words describe: `"TABLE OF CONTENTS"`, a blank line,
then the first 20 *lines* of the combined text. -/
def specTruncatedTocText (combined : Str) : Str :=
  ("TABLE OF CONTENTS\n\n").toList ++ (pyJoin ('\n' :: []) ((pySplitLines combined).take 20))

/-- Claim C7 (amended): when the buffered run's combined text is
over the token budget, the single emitted segment carries section
`TABLE OF CONTENTS` and its text is `"TABLE OF CONTENTS"`, a blank line,
then the first 20 *text parts* (one per buffered segment, each segment's
whole stripped text) joined by single newlines and stripped — not the
first 20 lines of the combined text. -/
theorem C7_toc_truncation (maxT : Nat) (buffer : List Segment)
    (hb : (tocParts buffer).isEmpty = false)
    (hover : maxT < countTokens (pyJoin ('\n' :: '\n' :: []) (tocParts buffer))) :
    (flushTocBuffer maxT buffer).length = 1 ∧
    ((flushTocBuffer maxT buffer).headD segDefault).sectionLabel
        = some (("TABLE OF CONTENTS").toList) ∧
    ((flushTocBuffer maxT buffer).headD segDefault).text
        = ("TABLE OF CONTENTS\n\n").toList
            ++ pyStrip (pyJoin ('\n' :: []) ((tocParts buffer).take 20)) := by
  have hbuf : buffer.isEmpty = false := by
    cases hbe : buffer.isEmpty
    · rfl
    · rw [List.isEmpty_iff] at hbe
      subst hbe
      simp [tocParts] at hb
  simp only [flushTocBuffer, hbuf, hb, Bool.false_eq_true, if_false]
  rw [if_pos hover]
  exact ⟨rfl, rfl, rfl⟩

def c7WSeg : Segment :=
  { segDefault with text := ("Summary\nArt. 1 One 2\nArt. 2 Two 3").toList }

theorem C7_toc_truncation_witness :
    (flushTocBuffer 1 [c7WSeg]).length = 1 ∧
    ((flushTocBuffer 1 [c7WSeg]).headD segDefault).sectionLabel
        = some (("TABLE OF CONTENTS").toList) ∧
    ((flushTocBuffer 1 [c7WSeg]).headD segDefault).text
        = ("TABLE OF CONTENTS\n\n").toList
            ++ pyStrip (pyJoin ('\n' :: []) ((tocParts [c7WSeg]).take 20)) :=
  C7_toc_truncation 1 [c7WSeg] (by decide) (by decide)

/-- A single buffered TOC segment whose text has 25 lines (`"Summary"`
plus 24 entry lines). -/
def c7CexSeg : Segment :=
  { segDefault with
      text := ("Summary").toList
        ++ (List.replicate 24 ('\n' :: 'a' :: ' ' :: '1' :: [])).flatten }

/-- The segment is TOC-by-keyword and over budget; the consolidated text
keeps all 25 lines (`text_parts[:20]` truncates *parts*, of which there is
only one), so it differs from the spec's "first 20 lines of the combined
text" — the truncation bounds segment parts, not lines. -/
theorem C7_counterexample :
    isTocSegment c7CexSeg = true ∧
    (mergeTocSegments 5 [c7CexSeg]).length = 1 ∧
    5 < countTokens (pyJoin ('\n' :: '\n' :: []) (tocParts [c7CexSeg])) ∧
    ((mergeTocSegments 5 [c7CexSeg]).headD segDefault).text
        ≠ specTruncatedTocText (pyJoin ('\n' :: '\n' :: []) (tocParts [c7CexSeg])) ∧
    (pySplitLines (((mergeTocSegments 5 [c7CexSeg]).headD segDefault).text)).length = 27 := by
  refine ⟨by decide, by decide, by decide, by decide, by decide⟩

/-! ## Article/section structure tracking (`metadata.py`, `pipeline.py`)

Regexes embedded here:
`SECTION_RE`, `ARTICLE_RE`, `SUBARTICLE_INLINE_RE`, `SUBARTICLE_DOTTED_RE`,
`ARTICLE_TOKEN_RE` from `metadata.py`, and `ARTICLE_LINE_RE`,
`LEADING_NUMERIC_SECTION_RE` from `pipeline.py`.  The capture group
`(\d+(?:\.\d+)*)\b` backtracks by dropping dotted groups from the right
until the following character is a non-word character (each `\d+` is
forced to consume a full digit run, since stopping inside a run puts a
digit on both sides of the next position).  `update_structure_state` and
`build_segments` always pass stripped lines, so the `$` in those regexes
means end of string. -/

/-- `value.split(".")[0]`. -/
def splitDotRoot (v : Str) : Str := v.takeWhile (fun c => !(c == '.'))

/-- Candidate `(capture-suffix, rest)` pairs for `(?:\.\d+)*`, greediest
first; each repetition consumes a dot and a full digit run. -/
def repCands : Nat → Str → List (Str × Str)
  | 0, s => [([], s)]
  | fuel + 1, s =>
    match s with
    | '.' :: rest =>
      let ds := rest.takeWhile Char.isDigit
      if ds.isEmpty then [([], ('.' :: rest))]
      else ((repCands fuel (rest.drop ds.length)).map
              (fun p => ('.' :: (ds ++ p.1), p.2))) ++ [([], ('.' :: rest))]
    | _ => [([], s)]

/-- Capture `(\d+(?:\.\d+)*)\b` at the front of `s` (Python's
greedy-with-backtracking choice). -/
def captureDottedNum (s : Str) : Option Str :=
  let ds := s.takeWhile Char.isDigit
  if ds.isEmpty then none
  else
    ((repCands (s.drop ds.length).length (s.drop ds.length)).filterMap (fun p =>
      match p.2 with
      | [] => some (ds ++ p.1)
      | c :: _ => if isWordChar c then none else some (ds ++ p.1))).head?

/-- Remainders after `^\s*(?:#\s*)?(?:art\.?|article|articolo)\s*[-.:]?\s*`
(one per keyword alternative, in the alternation's order). -/
def articleHeadRemainders (line : Str) : List Str :=
  let s0 := line.dropWhile pyIsSpace
  let s1 := match s0 with
            | '#' :: rest => rest.dropWhile pyIsSpace
            | _ => s0
  (matchArtKw s1).map (fun kwRest =>
    let r1 := kwRest.dropWhile pyIsSpace
    let r2 := match r1 with
              | c :: rest2 => if c == '-' || c == '.' || c == ':' then rest2 else r1
              | [] => r1
    r2.dropWhile pyIsSpace)

/-- `pipeline.py::ARTICLE_LINE_RE.match`, returning group 1. -/
def articleLineMatch (line : Str) : Option Str :=
  (articleHeadRemainders line).findSome? captureDottedNum

/-- `metadata.py::ARTICLE_RE.match`, returning groups 1 and 2 (the trailing
`(.*)$` forbids interior newlines). -/
def articleReMatch (line : Str) : Option (Str × Str) :=
  (articleHeadRemainders line).findSome? fun r3 =>
    let ds := r3.takeWhile Char.isDigit
    if ds.isEmpty then none
    else
      ((repCands (r3.drop ds.length).length (r3.drop ds.length)).filterMap (fun p =>
        match p.2 with
        | [] => some (ds ++ p.1, ([] : Str))
        | c :: _ =>
          if isWordChar c || p.2.contains '\n' then none
          else some (ds ++ p.1, p.2))).head?

/-- The `ARTICOLO\b` alternative of `ARTICLE_TOKEN_RE` at the front. -/
def articleTokenAt8 (s : Str) : Option Nat :=
  match matchLitCI (("articolo").toList) s with
  | some rest =>
    (match rest with
     | c :: _ => if isWordChar c then none else some 8
     | [] => some 8)
  | none => none

/-- The dot-less alternatives `ART\b | ARTICLE\b | ARTICOLO\b` of
`ARTICLE_TOKEN_RE` at the front, in the alternation's order. -/
def articleTokenAtNoDot (s : Str) : Option Nat :=
  let bTail : Str → Option Unit := fun rest =>
    match rest with
    | c :: _ => if isWordChar c then none else some ()
    | [] => some ()
  match matchLitCI (("art").toList) s with
  | some rest =>
    (match bTail rest with
     | some _ => some 3
     | none =>
       match matchLitCI (("article").toList) s with
       | some rest7 => (match bTail rest7 with | some _ => some 7 | none => articleTokenAt8 s)
       | none => articleTokenAt8 s)
  | none => none

/-- One `ARTICLE_TOKEN_RE` alternative matching at the front (the leading
`\b` is the caller's responsibility); returns the match length.  The
engine prefers `ART.` (greedy `\.?`), whose trailing `\b` holds only when
a word character follows the dot. -/
def articleTokenAt (s : Str) : Option Nat :=
  match matchLitCI (("art.").toList) s with
  | some rest =>
    (match rest with
     | c :: _ =>
       if isWordChar c then some 4
       else articleTokenAtNoDot s
     | [] => articleTokenAtNoDot s)
  | none => articleTokenAtNoDot s

/-- `len(ARTICLE_TOKEN_RE.findall(line))`: non-overlapping left-to-right
scan with the word-boundary state. -/
def articleTokenCountAux : Nat → Str → Bool → Nat
  | 0, _, _ => 0
  | fuel + 1, s, prevWord =>
    match s with
    | [] => 0
    | c :: rest =>
      if !prevWord then
        match articleTokenAt s with
        | some n => 1 + articleTokenCountAux fuel (s.drop n) (decide (n ≠ 4))
        | none => articleTokenCountAux fuel rest (isWordChar c)
      else articleTokenCountAux fuel rest (isWordChar c)

def articleTokenCount (s : Str) : Nat := articleTokenCountAux s.length s false

/-- Caseless `[IVXLC0-9]`. -/
def isRomanNumClass (c : Char) : Bool :=
  c.toUpper == 'I' || c.toUpper == 'V' || c.toUpper == 'X' || c.toUpper == 'L' ||
    c.toUpper == 'C' || c.isDigit

/-- A `KEYWORD\s+[IVXLC0-9]+.*$` alternative of `SECTION_RE` at remainder
`r` (the `\s+` may span newlines; the `.*$` tail may not). -/
def sectionAltKw (kw : Str) (r : Str) : Bool :=
  match matchLitCI kw r with
  | none => false
  | some rest =>
    let ws := rest.takeWhile pyIsSpace
    if ws.isEmpty then false
    else
      match rest.drop ws.length with
      | [] => false
      | c :: tail => isRomanNumClass c && !tail.contains '\n'

/-- Remainders after one or more repetitions of `\d+\.` (for the
`(?:\d+\.)+\s+.*` alternative of `SECTION_RE`). -/
def digitDotReps : Nat → Str → List Str
  | 0, _ => []
  | fuel + 1, s =>
    let ds := s.takeWhile Char.isDigit
    if ds.isEmpty then []
    else
      match s.drop ds.length with
      | '.' :: rest => rest :: digitDotReps fuel rest
      | _ => []

/-- A `KEYWORD\b.*$` alternative of `SECTION_RE`. -/
def sectionAltWordB (kw : Str) (r : Str) : Bool :=
  match matchLitCI kw r with
  | none => false
  | some rest =>
    (match rest with
     | [] => true
     | c :: _ => !isWordChar c) && !rest.contains '\n'

/-- The alternation inside `SECTION_RE`'s capture group, applied to the
line after `^\s*(?:#\s*)?`. -/
def sectionAlts (r : Str) : Bool :=
  sectionAltKw (("section").toList) r || sectionAltKw (("sezione").toList) r ||
  sectionAltKw (("part").toList) r || sectionAltKw (("chapter").toList) r ||
  sectionAltKw (("capo").toList) r || sectionAltKw (("titolo").toList) r ||
  ((digitDotReps r.length r).any (fun rest =>
    let ws := rest.takeWhile pyIsSpace
    !ws.isEmpty && !(rest.drop ws.length).contains '\n')) ||
  (match matchLitCI (("general section").toList) r with
   | some rest => !rest.contains '\n'
   | none => false) ||
  sectionAltWordB (("scholarship").toList) r ||
  sectionAltWordB (("borsa").toList) r ||
  sectionAltWordB (("accomodation").toList) r ||
  sectionAltWordB (("accommodation").toList) r

/-- `SECTION_RE.match`, returning group 1 (which always extends to the end
of the line). -/
def sectionReGroup (line : Str) : Option Str :=
  let s0 := line.dropWhile pyIsSpace
  let r := match s0 with
           | '#' :: rest => rest.dropWhile pyIsSpace
           | _ => s0
  if sectionAlts r then some r else none

/-- `SUBARTICLE_INLINE_RE = \((\d+(?:\.\d+)?)\)` matching at the front. -/
def subInlineAt (s : Str) : Option Str :=
  match s with
  | '(' :: rest =>
    let d1 := rest.takeWhile Char.isDigit
    if d1.isEmpty then none
    else
      (match rest.drop d1.length with
       | '.' :: r2 =>
         let d2 := r2.takeWhile Char.isDigit
         if d2.isEmpty then none
         else
           (match r2.drop d2.length with
            | ')' :: _ => some (d1 ++ '.' :: d2)
            | _ => none)
       | ')' :: _ => some d1
       | _ => none)
  | _ => none

/-- `SUBARTICLE_INLINE_RE.search`, returning group 1 of the first match. -/
def subInlineSearch : Str → Option Str
  | [] => none
  | c :: rest =>
    match subInlineAt (c :: rest) with
    | some v => some v
    | none => subInlineSearch rest

/-- `SUBARTICLE_DOTTED_RE = ^\s*(\d+\.\d+)\b`, returning group 1. -/
def subDottedMatch (line : Str) : Option Str :=
  let s0 := line.dropWhile pyIsSpace
  let d1 := s0.takeWhile Char.isDigit
  if d1.isEmpty then none
  else
    match s0.drop d1.length with
    | '.' :: r1 =>
      let d2 := r1.takeWhile Char.isDigit
      if d2.isEmpty then none
      else
        (match r1.drop d2.length with
         | [] => some (d1 ++ '.' :: d2)
         | c :: _ => if isWordChar c then none else some (d1 ++ '.' :: d2))
    | _ => none

/-- `metadata.py::update_structure_state`. -/
def updateStructureState (text : Str) (sec art sub : Option Str) (isHeading : Bool) :
    Option Str × Option Str × Option Str :=
  let line := pyStrip text
  if line.isEmpty then (sec, art, sub)
  else
    let sec1 := match sectionReGroup line with
                | some g => some (pyStrip g)
                | none => sec
    match articleReMatch line with
    | some (artFull, remainder) =>
      let mentions := articleTokenCount line
      let looksLikeTitle0 := isHeading || decide (line.length ≤ 140) || pyIsUpperStr line
      let looksLikeTitle := if 1 < mentions && !isHeading then false else looksLikeTitle0
      if !looksLikeTitle then (sec1, art, sub)
      else
        let newArt := splitDotRoot artFull
        let newSub := if artFull.contains '.' then some artFull else none
        match (if isHeading then subInlineSearch remainder else none) with
        | some v => (sec1, some newArt, some v)
        | none => (sec1, some newArt, newSub)
    | none =>
      match subDottedMatch line with
      | some v =>
        (match art with
         | some a =>
           if (a ++ '.' :: []).isPrefixOf v then (sec1, art, some v)
           else (sec1, art, sub)
         | none => (sec1, art, sub))
      | none => (sec1, art, sub)

/-- The fold state of `chunking.py::build_segments`. -/
structure BuildState where
  segs : List Segment
  heading_path : List Str
  sec : Option Str
  art : Option Str
  sub : Option Str
  parts : List Str
  refs : List PageRef
  cheading : List Str
  csec : Option Str
  cart : Option Str
  csub : Option Str

/-- The `flush()` closure of `build_segments`. -/
def flushBuild (st : BuildState) : List Segment :=
  if st.parts.isEmpty then st.segs
  else
    let text := pyStrip (pyJoin ('\n' :: '\n' :: []) (st.parts.filter (fun p => !p.isEmpty)))
    if text.isEmpty then st.segs
    else st.segs ++
      [{ text := text, page_refs := dedupePageRefs st.refs, sectionLabel := st.csec,
         article := st.cart, subarticle := st.csub, heading_path := st.cheading }]

/-- The body of `build_segments`' block loop. -/
def buildStep (st : BuildState) (block : CanonicalBlock) : BuildState :=
  let text := pyStrip block.text
  if text.isEmpty then st
  else
    let isHeading := block.heading_level.isSome
    let hp := match block.heading_level with
              | some hl =>
                st.heading_path.take (max 1 hl - 1)
                  ++ [pyStrip (text.dropWhile (fun c => c == '#'))]
              | none => st.heading_path
    let n := updateStructureState text st.sec st.art st.sub isHeading
    let structureChanged :=
      !(decide (n.1 = st.sec) && decide (n.2.1 = st.art) && decide (n.2.2 = st.sub))
    let isBoundary := isHeading || structureChanged
    let st1 := if !st.parts.isEmpty && isBoundary then
                 { st with segs := flushBuild st, parts := [], refs := [] }
               else st
    let st2 := { st1 with heading_path := hp, sec := n.1, art := n.2.1, sub := n.2.2 }
    let st3 := if st2.parts.isEmpty then
                 { st2 with cheading := hp, csec := n.1, cart := n.2.1, csub := n.2.2 }
               else st2
    { st3 with parts := st3.parts ++ [text], refs := st3.refs ++ block.page_refs }

/-- `chunking.py::build_segments`. -/
def buildSegments (blocks : List CanonicalBlock) : List Segment :=
  flushBuild (blocks.foldl buildStep
    { segs := [], heading_path := [], sec := none, art := none, sub := none,
      parts := [], refs := [], cheading := [], csec := none, cart := none, csub := none })

/-- The scenario block list of the claim. -/
def c5Blocks : List CanonicalBlock :=
  [{ text := ("ART. 1 FIRST").toList, block_type := ("title").toList,
     page_refs := [], heading_level := some 1 },
   { text := ("body one").toList, block_type := ("text").toList,
     page_refs := [], heading_level := none },
   { text := ("ART. 2 SECOND").toList, block_type := ("title").toList,
     page_refs := [], heading_level := some 1 },
   { text := ("body two").toList, block_type := ("text").toList,
     page_refs := [], heading_level := none }]

/-- Claim C5: for blocks `[title("ART. 1 FIRST", level=1), text("body one"),
title("ART. 2 SECOND", level=1), text("body two")]`, `build_segments`
returns exactly two segments, the first with article `"1"` and the second
with article `"2"` (with the expected merged texts). -/
theorem C5_article_segmentation :
    (buildSegments c5Blocks).length = 2 ∧
    ((buildSegments c5Blocks).headD segDefault).article = some ('1' :: []) ∧
    (((buildSegments c5Blocks).drop 1).headD segDefault).article = some ('2' :: []) ∧
    ((buildSegments c5Blocks).headD segDefault).text
      = ("ART. 1 FIRST\n\nbody one").toList ∧
    (((buildSegments c5Blocks).drop 1).headD segDefault).text
      = ("ART. 2 SECOND\n\nbody two").toList := by
  refine ⟨by decide, by decide, by decide, by decide, by decide⟩

/-! ## Chunk-article resolution (`pipeline.py` lines 495-541 and 893-905) -/

/-- `pipeline.py::_line_article_mentions`. -/
def lineArticleMentions (text : Str) : List Str :=
  ((strippedLines text).take 10).filterMap articleLineMatch

/-- `pipeline.py::_resolve_chunk_article`. -/
def resolveChunkArticle (chunkText : Str) (fbArt fbSub : Option Str) :
    Option Str × Option Str :=
  match lineArticleMentions chunkText with
  | [] => (fbArt, fbSub)
  | chosen :: more =>
    let roots := (chosen :: more).map splitDotRoot
    let uniqueOne : Bool := decide (roots.dedup.length = 1)
    match fbArt with
    | none =>
      if uniqueOne then
        (some (splitDotRoot chosen), if chosen.contains '.' then some chosen else none)
      else (none, fbSub)
    | some fa =>
      if !decide (fa ∈ roots) && uniqueOne then
        (some (splitDotRoot chosen), if chosen.contains '.' then some chosen else fbSub)
      else (some fa, fbSub)

/-- `LEADING_NUMERIC_SECTION_RE = ^\s*(\d+(?:\.\d+)*)\b`, group 1. -/
def captureLeadingNum (s : Str) : Option Str := captureDottedNum (s.dropWhile pyIsSpace)

/-- `pipeline.py::_article_from_section_label`. -/
def articleFromSectionLabel (sec : Option Str) : Option Str × Option Str :=
  match sec with
  | none => (none, none)
  | some s =>
    if s.isEmpty then (none, none)
    else
      match captureLeadingNum (pyStrip s) with
      | none => (none, none)
      | some v => (some (splitDotRoot v), if v.contains '.' then some v else none)

/-- The article/subarticle assignment of the chunk-emit loop
(`_process_document_folder`, lines 893-905). -/
def finalChunkArticle (chunkText : Str) (resolvedSection fbArt fbSub : Option Str) :
    Option Str × Option Str :=
  let r := resolveChunkArticle chunkText fbArt fbSub
  match r.1 with
  | some a => (some a, r.2)
  | none =>
    let s := articleFromSectionLabel resolvedSection
    match s.1 with
    | some a2 => (some a2, if r.2.isNone then s.2 else r.2)
    | none => (some (("front_matter").toList), r.2)

/-- Claim C6: every emitted chunk row's article is non-null: the assigned article is
the first defined value of the in-chunk/fallback resolution, the leading
numeric of the section label, and the literal sentinel `"front_matter"` —
in particular it is always `some _`, never `none`. -/
theorem C6_article_nonnull (chunkText : Str) (resolvedSection fbArt fbSub : Option Str) :
    (finalChunkArticle chunkText resolvedSection fbArt fbSub).1
      = some ((resolveChunkArticle chunkText fbArt fbSub).1.getD
          ((articleFromSectionLabel resolvedSection).1.getD (("front_matter").toList))) := by
  unfold finalChunkArticle
  dsimp only
  cases h1 : (resolveChunkArticle chunkText fbArt fbSub).1 with
  | none =>
    cases h2 : (articleFromSectionLabel resolvedSection).1 with
    | none => simp [h1, h2]
    | some a2 => simp [h1, h2]
  | some a => simp [h1]

end RagChunker
